import Mathlib

/-!
Verification development for the Auctor novel-editor's core: the tagged
chapter-document format (`<text>` / `<settings>` / `<critique>`), the
selection-rewrite controller with its reentrancy guard, the streaming
completion dispatcher, the critique prompt assembly and critique
injection, and the chapter-order normalisation handlers.

Strings are modelled as `List Char` (`Str`).  JavaScript's
`String.prototype.match` with a pattern of the form
`/<tag>([\s\S]*?)<\/tag>/` finds the leftmost open-tag occurrence that
has a close tag somewhere after it and captures the shortest inner
span; since any close tag occurring after a later open tag also occurs
after the first open tag, this is equivalent to: find the first
open-tag occurrence, then the first close-tag occurrence after it
(`extractTag` below).  `String.prototype.trim` removes the ECMAScript
whitespace set from both ends (`jsTrim`).
-/

set_option maxHeartbeats 1000000

abbrev Str : Type := List Char

/-- ECMAScript WhiteSpace and LineTerminator code points (the set removed
by `String.prototype.trim`). -/
def jsWhitespaceChars : Str :=
  ['\t', '\n', '\u000B', '\u000C', '\r', ' ', '\u00A0', '\u1680',
   '\u2000', '\u2001', '\u2002', '\u2003', '\u2004', '\u2005', '\u2006',
   '\u2007', '\u2008', '\u2009', '\u200A', '\u2028', '\u2029', '\u202F',
   '\u205F', '\u3000', '\uFEFF']

def jsWhitespace (c : Char) : Bool :=
  jsWhitespaceChars.contains c

/-- JavaScript `String.prototype.trim`: drop leading and trailing
whitespace. -/
def jsTrim (s : Str) : Str :=
  ((s.dropWhile jsWhitespace).reverse.dropWhile jsWhitespace).reverse

/-- Find the first occurrence of `pat` in `s`; return the part strictly
before the occurrence and the part strictly after it.  This is the
primitive behind both `String.prototype.includes` and the regex
extraction used by the chapter parser. -/
def splitFirst (pat : Str) : Str → Option (Str × Str)
  | [] => if pat.isPrefixOf ([] : Str) then some ([], []) else none
  | c :: rest =>
    if pat.isPrefixOf (c :: rest) then some ([], (c :: rest).drop pat.length)
    else
      match splitFirst pat rest with
      | some (pre, post) => some (c :: pre, post)
      | none => none

/-- JavaScript `String.prototype.includes`. -/
def containsSub (pat s : Str) : Bool :=
  (splitFirst pat s).isSome

/-- Regex extraction `/open([\s\S]*?)close/` : first occurrence of the
open tag, then the shortest span up to the next close tag (see the file
header for why this matches the JavaScript regex semantics). -/
def extractTag (opn cls s : Str) : Option Str :=
  match splitFirst opn s with
  | none => none
  | some (_, rest) =>
    match splitFirst cls rest with
    | none => none
    | some (inner, _) => some inner

/-- A pattern is borderless when no nonempty proper prefix of it is also
a suffix of it.  All six chapter tags are borderless because `<` occurs
in each of them only at index 0. -/
def Borderless (pat : Str) : Prop :=
  ∀ p ∈ pat.inits, p <:+ pat → p = [] ∨ p = pat

instance (pat : Str) : Decidable (Borderless pat) := by
  unfold Borderless
  infer_instance

/-!
JSON model: `escChar`/`stringifySettings` embed the exact output of
`JSON.stringify({summary, ageOffset, style}, null, 2)` (ECMA-262
QuoteJSONString), and `jsonParse` embeds `JSON.parse` as a
recursive-descent parser of the JSON grammar (fuel-indexed; the fuel
`length + 1` always suffices because every recursive step first
consumes at least one character).  Two deliberate modelling
restrictions, both outside every input the claims touch: surrogate
pairs in `\uXXXX` escapes are not combined (Lean `Char` holds scalar
values), and duplicate object keys resolve to the first instead of the
last occurrence.
-/

inductive Json where
  | null : Json
  | bool (b : Bool) : Json
  | num (raw : Str) : Json
  | str (s : Str) : Json
  | arr (elems : List Json) : Json
  | obj (fields : List (Str × Json)) : Json

def hexChars : Str :=
  ['0', '1', '2', '3', '4', '5', '6', '7'] ++
    ['8', '9', 'a', 'b', 'c', 'd', 'e', 'f']

def hexDig (n : Nat) : Char := hexChars.getD n '0'

def hexVal (c : Char) : Option Nat :=
  if '0' ≤ c ∧ c ≤ '9' then some (c.toNat - '0'.toNat)
  else if 'a' ≤ c ∧ c ≤ 'f' then some (c.toNat - 'a'.toNat + 10)
  else if 'A' ≤ c ∧ c ≤ 'F' then some (c.toNat - 'A'.toNat + 10)
  else none

/-- ECMA-262 QuoteJSONString escaping of one character. -/
def escChar (c : Char) : Str :=
  if c = '"' then ['\\', '"']
  else if c = '\\' then ['\\', '\\']
  else if c = '\u0008' then ['\\', 'b']
  else if c = '\u000C' then ['\\', 'f']
  else if c = '\n' then ['\\', 'n']
  else if c = '\r' then ['\\', 'r']
  else if c = '\t' then ['\\', 't']
  else if c.toNat < 32 then
    ['\\', 'u', '0', '0', hexDig (c.toNat / 16), hexDig (c.toNat % 16)]
  else [c]

def escapeChars : Str → Str
  | [] => []
  | c :: cs => escChar c ++ escapeChars cs

/-- JSON string literal for `s`: quote, escape, quote. -/
def quoteJson (s : Str) : Str :=
  '"' :: (escapeChars s ++ ['"'])

def keySummary : Str := ['s', 'u', 'm', 'm', 'a', 'r', 'y']

def keyAgeOffset : Str := ['a', 'g', 'e', 'O', 'f', 'f', 's', 'e', 't']

def keyStyle : Str := ['s', 't', 'y', 'l', 'e']

/-- Exact output of `JSON.stringify({summary, ageOffset, style}, null, 2)`. -/
def stringifySettings (su ao st : Str) : Str :=
  ['{', '\n', ' ', ' '] ++ quoteJson keySummary ++ [':', ' '] ++ quoteJson su ++
  [',', '\n', ' ', ' '] ++ quoteJson keyAgeOffset ++ [':', ' '] ++ quoteJson ao ++
  [',', '\n', ' ', ' '] ++ quoteJson keyStyle ++ [':', ' '] ++ quoteJson st ++
  ['\n', '}']

def jsonWs (c : Char) : Bool :=
  c = ' ' || c = '\t' || c = '\n' || c = '\r'

def skipWs (s : Str) : Str := s.dropWhile jsonWs

def consStr (c : Char) : Option (Str × Str) → Option (Str × Str)
  | some (s, r) => some (c :: s, r)
  | none => none

/-- Read a JSON string-literal body (after the opening quote), decoding
escapes; rejects raw control characters and bad escapes exactly as
`JSON.parse` does. -/
def readStr : Str → Option (Str × Str)
  | [] => none
  | c :: rest =>
    if c = '"' then some ([], rest)
    else if c = '\\' then
      match rest with
      | [] => none
      | e :: rest2 =>
        if e = '"' then consStr '"' (readStr rest2)
        else if e = '\\' then consStr '\\' (readStr rest2)
        else if e = '/' then consStr '/' (readStr rest2)
        else if e = 'b' then consStr '\u0008' (readStr rest2)
        else if e = 'f' then consStr '\u000C' (readStr rest2)
        else if e = 'n' then consStr '\n' (readStr rest2)
        else if e = 'r' then consStr '\r' (readStr rest2)
        else if e = 't' then consStr '\t' (readStr rest2)
        else if e = 'u' then
          match rest2 with
          | h1 :: h2 :: h3 :: h4 :: rest3 =>
            match hexVal h1, hexVal h2, hexVal h3, hexVal h4 with
            | some a, some b, some c2, some d =>
              consStr (Char.ofNat (((a * 16 + b) * 16 + c2) * 16 + d)) (readStr rest3)
            | _, _, _, _ => none
          | _ => none
        else none
    else if c.toNat < 32 then none
    else consStr c (readStr rest)

def isDigit (c : Char) : Bool := decide ('0' ≤ c) && decide (c ≤ '9')

/-- JSON integer part: `0` or a nonzero digit followed by digits. -/
def parseIntPart : Str → Option (Str × Str)
  | [] => none
  | c :: rest =>
    if c = '0' then some (['0'], rest)
    else if isDigit c then some (c :: rest.takeWhile isDigit, rest.dropWhile isDigit)
    else none

/-- JSON fraction part (optional; if a dot is present it needs digits). -/
def parseFracPart : Str → Option (Str × Str)
  | '.' :: rest =>
    if rest.takeWhile isDigit = [] then none
    else some ('.' :: rest.takeWhile isDigit, rest.dropWhile isDigit)
  | s => some ([], s)

/-- JSON exponent part (optional; sign allowed, digits required). -/
def parseExpPart (s : Str) : Option (Str × Str) :=
  match s with
  | e :: rest =>
    if e = 'e' ∨ e = 'E' then
      match rest with
      | c :: rest2 =>
        if c = '+' ∨ c = '-' then
          if rest2.takeWhile isDigit = [] then none
          else some (e :: c :: rest2.takeWhile isDigit, rest2.dropWhile isDigit)
        else if rest.takeWhile isDigit = [] then none
        else some (e :: rest.takeWhile isDigit, rest.dropWhile isDigit)
      | [] => none
    else some ([], s)
  | [] => some ([], s)

/-- JSON number grammar `-? int frac? exp?`; keeps the raw spelling. -/
def parseNum (s : Str) : Option (Str × Str) :=
  let core : Str → Option (Str × Str) := fun t =>
    match parseIntPart t with
    | none => none
    | some (i, r1) =>
      match parseFracPart r1 with
      | none => none
      | some (f, r2) =>
        match parseExpPart r2 with
        | none => none
        | some (x, r3) => some (i ++ f ++ x, r3)
  match s with
  | '-' :: rest =>
    match core rest with
    | some (n, r) => some ('-' :: n, r)
    | none => none
  | _ => core s

mutual

/-- JSON value parser; `fuel` bounds the recursion depth and
`length + 1` fuel always suffices. -/
def parseVal : Nat → Str → Option (Json × Str)
  | 0, _ => none
  | fuel + 1, s =>
    match s with
    | 'n' :: 'u' :: 'l' :: 'l' :: r => some (.null, r)
    | 't' :: 'r' :: 'u' :: 'e' :: r => some (.bool true, r)
    | 'f' :: 'a' :: 'l' :: 's' :: 'e' :: r => some (.bool false, r)
    | '"' :: r =>
      match readStr r with
      | some (cs, r2) => some (.str cs, r2)
      | none => none
    | '{' :: r =>
      match skipWs r with
      | '}' :: r2 => some (.obj [], r2)
      | s2 =>
        match parseMembers fuel s2 with
        | some (fs, r2) => some (.obj fs, r2)
        | none => none
    | '[' :: r =>
      match skipWs r with
      | ']' :: r2 => some (.arr [], r2)
      | s2 =>
        match parseElems fuel s2 with
        | some (es, r2) => some (.arr es, r2)
        | none => none
    | _ =>
      match parseNum s with
      | some (raw, r) => some (.num raw, r)
      | none => none

def parseMembers : Nat → Str → Option (List (Str × Json) × Str)
  | 0, _ => none
  | fuel + 1, s =>
    match s with
    | '"' :: r =>
      match readStr r with
      | some (k, r2) =>
        match skipWs r2 with
        | ':' :: r3 =>
          match parseVal fuel (skipWs r3) with
          | some (v, r4) =>
            match skipWs r4 with
            | ',' :: r5 =>
              match parseMembers fuel (skipWs r5) with
              | some (fs, r6) => some ((k, v) :: fs, r6)
              | none => none
            | '}' :: r5 => some ([(k, v)], r5)
            | _ => none
          | none => none
        | _ => none
      | none => none
    | _ => none

def parseElems : Nat → Str → Option (List Json × Str)
  | 0, _ => none
  | fuel + 1, s =>
    match parseVal fuel s with
    | some (v, r) =>
      match skipWs r with
      | ',' :: r2 =>
        match parseElems fuel (skipWs r2) with
        | some (es, r3) => some (v :: es, r3)
        | none => none
      | ']' :: r2 => some ([v], r2)
      | _ => none
    | none => none

end

/-- JavaScript `JSON.parse`: a full JSON text, surrounding whitespace
allowed, nothing after the value. -/
def jsonParse (s : Str) : Option Json :=
  match parseVal (s.length + 1) (skipWs s) with
  | some (v, r) => if skipWs r = [] then some v else none
  | none => none

/-- Reading `parsed.k || ''` for the settings fields: a string field is
returned as-is (an absent field, a non-object value, or a falsy field
all coerce to the empty string; the settings this app writes are always
strings). -/
def jsGetStrField (j : Json) (k : Str) : Str :=
  match j with
  | .obj fs =>
    match List.lookup k fs with
    | some (.str s) => s
    | _ => []
  | _ => []

/-!
Chapter document model (ChapterCard.tsx).  `parseChapter` embeds the
initial-parse effect (legacy untagged fallback, independent non-greedy
extraction of the three sections, JSON settings with a
legacy-summary fallback); `handleSave` embeds the save template
(all three tags in fixed order, pretty-printed settings JSON, the
whole template trimmed).
-/

def openTextTag : Str := ['<', 't', 'e', 'x', 't', '>']

def closeTextTag : Str := ['<', '/', 't', 'e', 'x', 't', '>']

def openSettingsTag : Str := ['<', 's', 'e', 't', 't', 'i', 'n', 'g', 's', '>']

def closeSettingsTag : Str := ['<', '/', 's', 'e', 't', 't', 'i', 'n', 'g', 's', '>']

def openCritiqueTag : Str := ['<', 'c', 'r', 'i', 't', 'i', 'q', 'u', 'e', '>']

def closeCritiqueTag : Str := ['<', '/', 'c', 'r', 'i', 't', 'i', 'q', 'u', 'e', '>']

structure ChapterSettings where
  summary : Str
  ageOffset : Str
  style : Str
deriving DecidableEq

def defaultSettings : ChapterSettings :=
  { summary := [], ageOffset := [], style := [] }

structure ChapterDoc where
  text : Str
  settings : ChapterSettings
  critique : Str
deriving DecidableEq

/-- ChapterCard's initial-parse effect: untagged content is taken whole
as text; otherwise each section is extracted independently (a failed
extraction leaves that piece of state at its empty default), the
settings payload is tried as JSON with the whole raw trimmed string as
a legacy summary on failure. -/
def parseChapter (content : Str) : ChapterDoc :=
  if containsSub openTextTag content = false then
    { text := content, settings := defaultSettings, critique := [] }
  else
    { text :=
        match extractTag openTextTag closeTextTag content with
        | some inner => jsTrim inner
        | none => []
      settings :=
        match extractTag openSettingsTag closeSettingsTag content with
        | some inner =>
          match jsonParse (jsTrim inner) with
          | some parsed =>
            { summary := jsGetStrField parsed keySummary
              ageOffset := jsGetStrField parsed keyAgeOffset
              style := jsGetStrField parsed keyStyle }
          | none => { summary := jsTrim inner, ageOffset := [], style := [] }
        | none => defaultSettings
      critique :=
        match extractTag openCritiqueTag closeCritiqueTag content with
        | some inner => jsTrim inner
        | none => [] }

/-- ChapterCard's `handleSave`: rebuild the tagged file from the three
sections and trim the whole template. -/
def handleSave (d : ChapterDoc) : Str :=
  jsTrim (('\n' :: openTextTag) ++ ('\n' :: d.text) ++ ('\n' :: closeTextTag) ++
    ('\n' :: openSettingsTag) ++
    ('\n' :: stringifySettings d.settings.summary d.settings.ageOffset d.settings.style) ++
    ('\n' :: closeSettingsTag) ++ ('\n' :: openCritiqueTag) ++ ('\n' :: d.critique) ++
    ('\n' :: closeCritiqueTag) ++ ['\n'])

/-- Member-list part of the pretty-printed settings object, split into
named pieces to keep the parsing lemmas readable. -/
def settingsBody3 (st : Str) : Str :=
  quoteJson keyStyle ++ ([':', ' '] ++ (quoteJson st ++ ['\n', '}']))

def settingsBody2 (ao st : Str) : Str :=
  quoteJson keyAgeOffset ++
    ([':', ' '] ++ (quoteJson ao ++ ([',', '\n', ' ', ' '] ++ settingsBody3 st)))

def settingsBody1 (su ao st : Str) : Str :=
  quoteJson keySummary ++
    ([':', ' '] ++ (quoteJson su ++ ([',', '\n', ' ', ' '] ++ settingsBody2 ao st)))

/-- Closed form of `handleSave` output (after the template trim). -/
def serializedForm (text su ao st critique : Str) : Str :=
  openTextTag ++ ('\n' :: text) ++ ('\n' :: closeTextTag) ++
    ('\n' :: openSettingsTag) ++ ('\n' :: stringifySettings su ao st) ++
    ('\n' :: closeSettingsTag) ++ ('\n' :: openCritiqueTag) ++ ('\n' :: critique) ++
    ('\n' :: closeCritiqueTag)

/-!
Selection-rewrite controller (ChapterCard.tsx `runRewrite` and the
rewrite-text event listeners).  The rich-text editor is modelled
linearly: a document string plus the current selection range
(`selFrom`/`selTo`; ProseMirror's `empty` flag is `selFrom = selTo`).
`runRewrite` is split at its single suspension point (the awaited
context fetch): `runRewriteSync` is everything before the await — the
reentrancy-guard check, the empty-selection check, and the synchronous
setting of both the React state and the ref — and `runRewriteAsync` is
everything after it (prompt assembly, selection deletion, dispatch),
with the fetched context string passed in as a value. -/

inductive RewriteMode where
  | rewrite : RewriteMode
  | shorter : RewriteMode
  | longer : RewriteMode
deriving DecidableEq

structure Editor where
  doc : Str
  selFrom : Nat
  selTo : Nat
deriving DecidableEq

def textBetween (e : Editor) : Str := (e.doc.take e.selTo).drop e.selFrom

def getText (e : Editor) : Str := e.doc

def deleteSelection (e : Editor) : Editor :=
  { doc := e.doc.take e.selFrom ++ e.doc.drop e.selTo,
    selFrom := e.selFrom, selTo := e.selFrom }

/-- `insertContent` replaces the current selection with the given text
and leaves the cursor collapsed after it. -/
def insertContent (s : Str) (e : Editor) : Editor :=
  { doc := e.doc.take e.selFrom ++ s ++ e.doc.drop e.selTo,
    selFrom := e.selFrom + s.length, selTo := e.selFrom + s.length }

structure CardState where
  editor : Editor
  isRewriting : Bool
  isRewritingRef : Bool
  style : Str
  dispatched : List Str
deriving DecidableEq

structure PendingRewrite where
  mode : RewriteMode
  selectedText : Str
  fullText : Str
deriving DecidableEq

def instructionBlock : RewriteMode → Str
  | .rewrite =>
    ("Rewrite the selected text to improve flow, tone, and clarity while maintaining the author's voice." : String).data
  | .shorter =>
    ("Rewrite the selected text to be more concise while staying true to the author's voice, meaning, tense, and point-of-view. Do not add new information or change events; keep the same intent and key beats, just tighter." : String).data
  | .longer =>
    ("Expand the selected text by adding vivid detail and color while staying true to the author's voice, tense, and point-of-view. Add concrete sensory detail, subtext, action beats, and specificity where it fits. Use the provided Characters/Places/Objects context when relevant to enrich the prose (without inventing new named entities or contradicting established facts)." : String).data

def styleNotesFor (style : Str) : Str :=
  if jsTrim style ≠ [] then
    ("\nStyle Notes (from this chapter's settings):\n" : String).data ++
      jsTrim style ++ ['\n']
  else []

def buildRewritePrompt (mode : RewriteMode) (style ctx fullText selectedText : Str) : Str :=
  ("\nYou are an expert story editor.\n\nTask:\n" : String).data ++
    instructionBlock mode ++ ['\n'] ++ styleNotesFor style ++
    ("\n\nProject Context (Characters, Places, Objects):\n" : String).data ++ ctx ++
    ("\n\nCreate Reference (Chapter Context - DO NOT OUTPUT THIS):\n" : String).data ++
    fullText ++
    ("\n\nSelected Text:\n" : String).data ++ selectedText ++
    ("\n\nOutput only the rewritten text. Do not include any explanation or markdown formatting unless appropriate for the story (e.g. italics).\n" : String).data

/-- Synchronous prefix of `runRewrite` (before the awaited context
fetch): guard check, empty-selection check, flag setting and capture of
the selection texts. -/
def runRewriteSync (mode : RewriteMode) (s : CardState) :
    CardState × Option PendingRewrite :=
  if s.isRewritingRef then (s, none)
  else if s.editor.selFrom = s.editor.selTo then (s, none)
  else
    ({ s with isRewriting := true, isRewritingRef := true },
     some { mode := mode, selectedText := textBetween s.editor,
            fullText := getText s.editor })

/-- Continuation of `runRewrite` after the context fetch resolves with
`ctx`: build the prompt, delete the selection, dispatch. -/
def runRewriteAsync (p : PendingRewrite) (ctx : Str) (s : CardState) : CardState :=
  { s with editor := deleteSelection s.editor,
           dispatched := s.dispatched ++
             [buildRewritePrompt p.mode s.style ctx p.fullText p.selectedText] }

/-- A whole `runRewrite` call with no interleaving at the suspension
point. -/
def runRewrite (mode : RewriteMode) (ctx : Str) (s : CardState) : CardState :=
  match runRewriteSync mode s with
  | (s', none) => s'
  | (s', some p) => runRewriteAsync p ctx s'

/-- rewrite-text-chunk listener. -/
def onRewriteChunk (chunk : Str) (s : CardState) : CardState :=
  if s.isRewritingRef = false then s
  else { s with editor := insertContent chunk s.editor }

/-- rewrite-text-end listener. -/
def onRewriteEnd (s : CardState) : CardState :=
  { s with isRewriting := false, isRewritingRef := false }

def rewriteErrorMarker (err : Str) : Str :=
  (" [Rewrite Error: " : String).data ++ err ++ ("] " : String).data

/-- rewrite-text-error listener. -/
def onRewriteError (err : Str) (s : CardState) : CardState :=
  { s with isRewriting := false, isRewritingRef := false,
           editor := insertContent (rewriteErrorMarker err) s.editor }

/-!
Completion stream dispatcher (electron/main.ts, `generate-ai-completion`
and `rewrite-text-completion` handlers).  Each handler is one
try/catch: inside the try the provider stream is iterated, sending one
chunk event per part, then the end event; any throw — during setup,
at the first await, or mid-iteration — jumps to the catch, which sends
exactly one error event with `String(error)`.  A transport run is
abstracted as the list of chunks the stream yielded before it either
completed (`failure = none`) or threw (`failure = some msg`).  The
rewrite handler additionally sends its start signal as the first
statement inside the try.  IPC delivery itself is assumed reliable
(`event.sender.send` does not throw). -/

structure StreamOutcome where
  chunks : List Str
  failure : Option Str
deriving DecidableEq

inductive DispatchEv where
  | start : DispatchEv
  | chunk (s : Str) : DispatchEv
  | done : DispatchEv
  | err (msg : Str) : DispatchEv
deriving DecidableEq

/-- The chunk loop with its terminal event: one chunk event per yielded
part, then the end event on completion or the error event on a throw. -/
def emitLoop : List Str → Option Str → List DispatchEv
  | [], none => [.done]
  | [], some m => [.err m]
  | c :: cs, f => .chunk c :: emitLoop cs f

/-- The `generate-ai-completion` handler's event sequence. -/
def generateCompletionEvents (o : StreamOutcome) : List DispatchEv :=
  emitLoop o.chunks o.failure

/-- The `rewrite-text-completion` handler's event sequence (start
signal first). -/
def rewriteCompletionEvents (o : StreamOutcome) : List DispatchEv :=
  .start :: emitLoop o.chunks o.failure

def isTerminal : DispatchEv → Bool
  | .done => true
  | .err _ => true
  | _ => false

/-!
Critique injection (App.tsx `handleCritiqueReceived`).  The handler
re-extracts the text and settings sections from the current file
content with the same regexes the parser uses, re-wraps them (falling
back to wrapping the whole content as text, and to an empty settings
section), and appends a fresh critique section around the incoming
critique text. -/

/-- Inner content of the text section for re-wrapping: the regex match
if there is one, otherwise the whole content (the no-tags fallback). -/
def textPartOf (content : Str) : Str :=
  match extractTag openTextTag closeTextTag content with
  | some inner => inner
  | none => content

/-- Inner content of the settings section for re-wrapping: the regex
match if there is one, otherwise empty. -/
def settingsPartOf (content : Str) : Str :=
  match extractTag openSettingsTag closeSettingsTag content with
  | some inner => inner
  | none => []

/-- App.tsx `handleCritiqueReceived` content rebuild: re-wrapped text
section, re-wrapped settings section, fresh critique section. -/
def injectCritique (content critiqueText : Str) : Str :=
  (openTextTag ++ textPartOf content ++ closeTextTag ++ ['\n']) ++
    (openSettingsTag ++ settingsPartOf content ++ closeSettingsTag ++ ['\n']) ++
    (openCritiqueTag ++ ('\n' :: critiqueText) ++ ('\n' :: closeCritiqueTag))

/-!
Critique prompt assembly (AIChatPanel.tsx `handleCritique`).  The
handler gathers three optional context sections — project overview
(title/author header and plot from the project settings), chapter
context (summary, non-zero age offset and style notes parsed from the
chapter's settings section), and one line per successfully read and
parsed entity file — and joins the non-empty ones with blank lines
between a fixed preamble and the chapter text delimited by `---`
markers.  The two awaited IPC fetches are passed in as values: the
project settings as an `Option` (`none` covers both a failed fetch and
a missing settings payload, which leave the section empty) and the file
listing together with each file's read result as a list of records.
JavaScript truthiness tests and template interpolation of the JSON
fields are modelled over string-valued fields (absent, non-string or
empty fields read as the empty string, exactly the `|| ''` defaults);
`lifeStages?.[0]` with a falsy first element reads its fields as absent
either way. -/

structure ProjectSettings where
  title : Str
  author : Str
  plot : Str
deriving DecidableEq

structure EntityFile where
  path : Str
  name : Str
  readSuccess : Bool
  content : Str
deriving DecidableEq

def keyName : Str := ("name").data

def keyAka : Str := ("aka").data

def keyLifeStages : Str := ("lifeStages").data

def keyAppearance : Str := ("appearance").data

def keyPersonality : Str := ("personality").data

def keyMotivation : Str := ("motivation").data

def keyDescription : Str := ("description").data

def charactersKey : Str := ("Characters").data

def placesKey : Str := ("Places").data

def objectsKey : Str := ("Objects").data

def jsonExt : Str := (".json").data

/-- JavaScript `String.prototype.replace` with a string pattern:
replaces the first occurrence only. -/
def jsReplaceFirst (pat rep s : Str) : Str :=
  match splitFirst pat s with
  | some (pre, post) => pre ++ rep ++ post
  | none => s

/-- JavaScript `Array.prototype.join`. -/
def jsJoin (sep : Str) : List Str → Str
  | [] => []
  | [x] => x
  | x :: y :: t => x ++ sep ++ jsJoin sep (y :: t)

/-- Object field lookup, `data.k` on a parsed JSON value. -/
def jsGetField (j : Json) (k : Str) : Option Json :=
  match j with
  | .obj fs => List.lookup k fs
  | _ => none

/-- The `x || 'N/A'` default for the entity description fields. -/
def orNA (s : Str) : Str :=
  if s = [] then ("N/A").data else s

/-- `data.lifeStages?.[0] || {}`. -/
def firstLifeStage (data : Json) : Json :=
  match jsGetField data keyLifeStages with
  | some (.arr (s :: _)) => s
  | _ => Json.obj []

/-- The `Novel: ... by ...` header accumulated from title and author. -/
def plotHeaderOf (ps : ProjectSettings) : Str :=
  (if ps.title ≠ [] then ("Novel: ").data ++ ps.title else []) ++
    (if ps.author ≠ [] then (" by ").data ++ ps.author else [])

def plotHeaderLineOf (ps : ProjectSettings) : Str :=
  if plotHeaderOf ps ≠ [] then plotHeaderOf ps ++ ['\n'] else []

/-- `plotContext` accumulated from the fetched project settings. -/
def plotContextOf : Option ProjectSettings → Str
  | none => []
  | some ps =>
    plotHeaderLineOf ps ++
      (if ps.plot ≠ [] then ("Plot: ").data ++ ps.plot ++ ['\n'] else [])

/-- The `Age Offset` line, emitted when the field is truthy and not the
string `0`. -/
def ageOffsetPartOf (parsed : Json) : Str :=
  if jsGetStrField parsed keyAgeOffset ≠ [] ∧ jsGetStrField parsed keyAgeOffset ≠ ['0'] then
    ("Age Offset: ").data ++ jsGetStrField parsed keyAgeOffset ++ (" years\n").data
  else []

/-- `chapterSettingsContext`: settings section extracted, trimmed and
parsed as JSON; parse failure or a missing section leaves it empty. -/
def chapterSettingsContextOf (content : Str) : Str :=
  match extractTag openSettingsTag closeSettingsTag content with
  | none => []
  | some inner =>
    match jsonParse (jsTrim inner) with
    | none => []
    | some parsed =>
      (if jsGetStrField parsed keySummary ≠ [] then
        ("Chapter Summary: ").data ++ jsGetStrField parsed keySummary ++ ['\n'] else []) ++
      ageOffsetPartOf parsed ++
      (if jsGetStrField parsed keyStyle ≠ [] then
        ("Writing Style Notes: ").data ++ jsGetStrField parsed keyStyle ++ ['\n'] else [])

/-- The entity-file filter: path under Characters, Places or Objects
and a `.json` name. -/
def isEntityFile (f : EntityFile) : Bool :=
  (containsSub charactersKey f.path || containsSub placesKey f.path ||
    containsSub objectsKey f.path) && jsonExt.isSuffixOf f.name

/-- One entity file's bracketed description line: empty when the read
failed, the JSON did not parse, or no category branch matched. -/
def entityDescOf (f : EntityFile) : Str :=
  if f.readSuccess = true then
    match jsonParse f.content with
    | none => []
    | some data =>
      (if containsSub charactersKey f.path then
        ("[Character: ").data ++
          (if jsGetStrField data keyName ≠ [] then jsGetStrField data keyName
            else jsReplaceFirst jsonExt [] f.name) ++
          (if jsGetStrField data keyAka ≠ [] then
            (" (aka ").data ++ jsGetStrField data keyAka ++ [')'] else []) ++
          (". Appearance: ").data ++ orNA (jsGetStrField (firstLifeStage data) keyAppearance) ++
          (". Personality: ").data ++ orNA (jsGetStrField (firstLifeStage data) keyPersonality) ++
          (". Motivation: ").data ++ orNA (jsGetStrField (firstLifeStage data) keyMotivation) ++
          [']']
      else if containsSub placesKey f.path then
        ("[Place: ").data ++
          (if jsGetStrField data keyName ≠ [] then jsGetStrField data keyName
            else jsReplaceFirst jsonExt [] f.name) ++
          (if jsGetStrField data keyAka ≠ [] then
            (" (aka ").data ++ jsGetStrField data keyAka ++ [')'] else []) ++
          (". Description: ").data ++ orNA (jsGetStrField data keyDescription) ++ [']']
      else if containsSub objectsKey f.path then
        ("[Object: ").data ++
          (if jsGetStrField data keyName ≠ [] then jsGetStrField data keyName
            else jsReplaceFirst jsonExt [] f.name) ++
          (if jsGetStrField data keyAka ≠ [] then
            (" (aka ").data ++ jsGetStrField data keyAka ++ [')'] else []) ++
          (". Description: ").data ++ orNA (jsGetStrField data keyDescription) ++ [']']
      else [])
  else []

/-- `entityLines`: one line per filtered entity file whose description
came out non-empty. -/
def entityLinesOf (files : List EntityFile) : List Str :=
  (files.filter isEntityFile).filterMap
    (fun f => if entityDescOf f = [] then none else some (entityDescOf f))

/-- `entityContext`: the lines joined by newlines when any exist. -/
def entityContextOf (files : List EntityFile) : Str :=
  if entityLinesOf files = [] then [] else jsJoin ['\n'] (entityLinesOf files)

/-- The chapter text for the prompt: the trimmed text section, or the
whole content when untagged. -/
def chapterTextOf (content : Str) : Str :=
  match extractTag openTextTag closeTextTag content with
  | some inner => jsTrim inner
  | none => content

/-- The non-empty context sections, each under its header, in fixed
order. -/
def sectionsOf (plotCtx chapCtx entCtx : Str) : List Str :=
  (if plotCtx ≠ [] then [("Project Overview:\n").data ++ plotCtx] else []) ++
    (if chapCtx ≠ [] then [("Chapter Context:\n").data ++ chapCtx] else []) ++
    (if entCtx ≠ [] then [("Characters, Places & Objects:\n").data ++ entCtx] else [])

def critiquePreamble : Str :=
  ("Critique the following writing sample. Focus on pacing, tone, character voice, and consistency with the established world and plot.\n\n").data

/-- The assembled critique prompt template. -/
def handleCritiquePrompt (ps : Option ProjectSettings) (files : List EntityFile)
    (contextContent : Str) : Str :=
  critiquePreamble ++
    jsJoin ['\n', '\n'] (sectionsOf (plotContextOf ps)
      (chapterSettingsContextOf contextContent) (entityContextOf files)) ++
    ("\n\n---\n").data ++ chapterTextOf contextContent ++ ("\n---").data

/-- `handleCritique`: empty content aborts with an alert and no
request; otherwise the prompt is assembled and dispatched. -/
def handleCritique (ps : Option ProjectSettings) (files : List EntityFile)
    (contextContent : Str) : Option Str :=
  if contextContent = [] then none
  else some (handleCritiquePrompt ps files contextContent)

/-!
Chapter ordering (electron/main.ts `get-chapter-order` and
`set-chapter-order` handlers and `setChapterOrder`).  The persisted
config's `chapterOrder` (string entries) is `saved`; the Chapters
directory listing is `disk`; `localeCompare` is abstracted as a
comparator `le`.  `Array.from(new Set(xs))` keeps first occurrences in
order (`jsDedup`); `.sort((a, b) => a.localeCompare(b))` is a stable
sort by `le` (`mergeSort`).  The get handler's write-back condition
(`length` differs or some index differs) is list inequality.  Each
handler is modelled as the pair (returned order, persisted order). -/

def jsDedupAux : List Str → List Str → List Str
  | _, [] => []
  | seen, x :: xs =>
    if x ∈ seen then jsDedupAux seen xs
    else x :: jsDedupAux (x :: seen) xs

/-- `Array.from(new Set(l))`: first occurrences, in order. -/
def jsDedup (l : List Str) : List Str := jsDedupAux [] l

/-- `setChapterOrder`'s normalisation: drop blank-trim entries, then
de-duplicate. -/
def setChapterOrderNormalize (order : List Str) : List Str :=
  jsDedup (order.filter (fun n => decide (0 < (jsTrim n).length)))

/-- The get handler's `normalized`: saved entries still on disk, in
saved order, then the remaining disk files sorted. -/
def getChapterOrderNormalized (le : Str → Str → Bool) (saved disk : List Str) :
    List Str :=
  saved.filter (fun f => decide (f ∈ disk)) ++
    (disk.filter (fun f => decide (f ∉ saved.filter (fun g => decide (g ∈ disk))))).mergeSort le

/-- The get handler: returns `normalized` and writes it back (through
`setChapterOrder`) only when it differs from the saved order. -/
def getChapterOrderHandler (le : Str → Str → Bool) (saved disk : List Str) :
    List Str × List Str :=
  (getChapterOrderNormalized le saved disk,
   if getChapterOrderNormalized le saved disk ≠ saved then
     setChapterOrderNormalize (getChapterOrderNormalized le saved disk)
   else saved)

/-- The set handler's `normalized`: de-duplicated caller order filtered
to disk, then the missing disk files sorted. -/
def setChapterOrderNormalized (le : Str → Str → Bool) (disk order : List Str) :
    List Str :=
  (jsDedup order).filter (fun n => decide (n ∈ disk)) ++
    (disk.filter (fun n => decide (n ∉ (jsDedup order).filter (fun m => decide (m ∈ disk))))).mergeSort le

/-- The set handler: returns `normalized` and always persists it
through `setChapterOrder`. -/
def setChapterOrderHandler (le : Str → Str → Bool) (disk order : List Str) :
    List Str × List Str :=
  (setChapterOrderNormalized le disk order,
   setChapterOrderNormalize (setChapterOrderNormalized le disk order))

theorem splitFirst_eq_append {pat s pre post : Str}
    (h : splitFirst pat s = some (pre, post)) : s = pre ++ pat ++ post := by
  induction s generalizing pre with
  | nil =>
    simp only [splitFirst] at h
    split at h
    · rename_i hp
      rw [List.isPrefixOf_iff_prefix] at hp
      rcases hp with ⟨t, ht⟩
      simp only [Option.some.injEq, Prod.mk.injEq] at h
      rcases h with ⟨h1, h2⟩
      simp [← h1, ← h2]
      rcases List.append_eq_nil.mp ht with ⟨hpat, -⟩
      simp [hpat]
    · exact absurd h (by simp)
  | cons c rest ih =>
    simp only [splitFirst] at h
    split at h
    · rename_i hp
      rw [List.isPrefixOf_iff_prefix] at hp
      simp only [Option.some.injEq, Prod.mk.injEq] at h
      rcases h with ⟨h1, h2⟩
      rcases hp with ⟨t, ht⟩
      subst h1
      subst h2
      rw [← ht]
      simp [List.drop_left]
    · rename_i hp
      cases hsf : splitFirst pat rest with
      | none => rw [hsf] at h; exact absurd h (by simp)
      | some pr =>
        rcases pr with ⟨pre', post'⟩
        rw [hsf] at h
        simp only [Option.some.injEq, Prod.mk.injEq] at h
        rcases h with ⟨h1, h2⟩
        subst h2
        rw [← h1]
        simp [ih hsf]

theorem splitFirst_isSome_iff_infix {pat s : Str} :
    (splitFirst pat s).isSome = true ↔ pat <:+: s := by
  induction s with
  | nil =>
    simp only [splitFirst]
    constructor
    · intro h
      split at h
      · rename_i hp
        rw [List.isPrefixOf_iff_prefix] at hp
        exact hp.isInfix
      · simp at h
    · intro h
      rw [List.infix_nil] at h
      subst h
      simp
  | cons c rest ih =>
    simp only [splitFirst]
    constructor
    · intro h
      split at h
      · rename_i hp
        rw [List.isPrefixOf_iff_prefix] at hp
        exact hp.isInfix
      · cases hsf : splitFirst pat rest with
        | none => rw [hsf] at h; simp at h
        | some pr =>
          have : (splitFirst pat rest).isSome = true := by simp [hsf]
          exact List.infix_cons (ih.mp this)
    · intro h
      rcases (List.infix_cons_iff).mp h with hpre | hinf
      · rw [← List.isPrefixOf_iff_prefix] at hpre
        simp [hpre]
      · split
        · simp
        · cases hsf : splitFirst pat rest with
          | none =>
            have : (splitFirst pat rest).isSome = true := ih.mpr hinf
            rw [hsf] at this
            simp at this
          | some pr => simp

theorem containsSub_iff_infix {pat s : Str} :
    containsSub pat s = true ↔ pat <:+: s := by
  unfold containsSub
  exact splitFirst_isSome_iff_infix

/-- Decomposition of an occurrence in a concatenation: the occurrence
lies in the left part, or in the right part, or spans the boundary. -/
theorem infix_append_split {pat a b : Str} (h : pat <:+: a ++ b) :
    pat <:+: a ∨ pat <:+: b ∨
      ∃ s p, pat = s ++ p ∧ s ≠ [] ∧ p ≠ [] ∧ s <:+ a ∧ p <+: b := by
  rcases h with ⟨u, v, huv⟩
  have huv' : u ++ (pat ++ v) = a ++ b := by
    rw [← huv]; simp [List.append_assoc]
  rcases List.append_eq_append_iff.mp huv' with ⟨a', ha, hb'⟩ | ⟨c', hc, hd⟩
  · rcases List.append_eq_append_iff.mp hb' with ⟨w, hw1, _⟩ | ⟨w, hw1, hw2⟩
    · left
      exact ⟨u, w, by rw [ha, hw1]; simp [List.append_assoc]⟩
    · by_cases ha' : a' = []
      · right; left
        subst ha'
        exact ⟨[], v, by simp [hw2, hw1]⟩
      · by_cases hw : w = []
        · left
          subst hw
          exact ⟨u, [], by simp [ha, hw1]⟩
        · right; right
          exact ⟨a', w, hw1, ha', hw, ⟨u, ha.symm⟩, ⟨v, hw2.symm⟩⟩
  · right; left
    exact ⟨c', v, by rw [hd]; simp [List.append_assoc]⟩

/-- No occurrence of `pat` in `a ++ b` provided none in `a`, none in `b`,
and no nonempty suffix of `a` is a prefix of `pat` (kills boundary
spans; checkable by `decide` when `a` and `pat` are concrete). -/
theorem not_infix_append_tails {pat a b : Str}
    (ha : ¬ pat <:+: a) (hb : ¬ pat <:+: b)
    (hs : ∀ s ∈ a.tails, s = [] ∨ ¬ s <+: pat) : ¬ pat <:+: a ++ b := by
  intro h
  rcases infix_append_split h with h1 | h2 | ⟨s, p, hpat, hsne, -, hsa, -⟩
  · exact ha h1
  · exact hb h2
  · rcases hs s ((List.mem_tails s a).mpr hsa) with rfl | hnp
    · exact hsne rfl
    · exact hnp ⟨p, hpat.symm⟩

/-- Symmetric version: no nonempty prefix of `b` is a suffix of `pat`
(checkable by `decide` when `b` and `pat` are concrete). -/
theorem not_infix_append_inits {pat a b : Str}
    (ha : ¬ pat <:+: a) (hb : ¬ pat <:+: b)
    (hs : ∀ p ∈ b.inits, p = [] ∨ ¬ p <:+ pat) : ¬ pat <:+: a ++ b := by
  intro h
  rcases infix_append_split h with h1 | h2 | ⟨s, p, hpat, -, hpne, -, hpb⟩
  · exact ha h1
  · exact hb h2
  · rcases hs p ((List.mem_inits p b).mpr hpb) with rfl | hnp
    · exact hpne rfl
    · exact hnp ⟨s, hpat.symm⟩

theorem not_infix_of_not_mem {pat s : Str} {c : Char}
    (hc : c ∈ pat) (hs : c ∉ s) : ¬ pat <:+: s :=
  fun h => hs (h.sublist.subset hc)

/-- Scanning for a borderless pattern in `pre ++ pat ++ rest` with no
occurrence inside `pre` finds exactly the explicit occurrence. -/
theorem splitFirst_append_pat {pat pre rest : Str} (hne : pat ≠ [])
    (hbl : Borderless pat) (hpre : ¬ pat <:+: pre) :
    splitFirst pat (pre ++ pat ++ rest) = some (pre, rest) := by
  induction pre with
  | nil =>
    cases pat with
    | nil => exact absurd rfl hne
    | cons pc pt =>
      have hshape : ([] : Str) ++ (pc :: pt) ++ rest = pc :: (pt ++ rest) := by simp
      rw [hshape]
      simp only [splitFirst]
      rw [if_pos]
      · have : (pc :: (pt ++ rest)) = (pc :: pt) ++ rest := by simp
        rw [this, List.drop_left]
      · rw [List.isPrefixOf_iff_prefix]
        exact ⟨rest, by simp⟩
  | cons c pre' ih =>
    have hshape : (c :: pre') ++ pat ++ rest = c :: (pre' ++ pat ++ rest) := by simp
    rw [hshape]
    simp only [splitFirst]
    rw [if_neg]
    · have hpre' : ¬ pat <:+: pre' := fun h => hpre (List.infix_cons h)
      rw [ih hpre']
    · rw [List.isPrefixOf_iff_prefix]
      intro hp
      have hre : c :: (pre' ++ pat ++ rest) = (c :: pre') ++ (pat ++ rest) := by simp
      rw [hre] at hp
      rcases le_or_lt pat.length (c :: pre').length with hle | hlt
      · have h1 : pat = ((c :: pre') ++ (pat ++ rest)).take pat.length :=
          List.prefix_iff_eq_take.mp hp
        rw [List.take_append_of_le_length hle] at h1
        exact hpre (List.prefix_iff_eq_take.mpr h1).isInfix
      · rcases hp with ⟨t, ht⟩
        have h2 : (pat ++ t).take (c :: pre').length = c :: pre' := by
          rw [ht, List.take_left]
        rw [List.take_append_of_le_length (Nat.le_of_lt hlt)] at h2
        have hAp : (c :: pre') <+: pat := List.prefix_iff_eq_take.mpr h2.symm
        have hps : pat = (c :: pre') ++ pat.drop (c :: pre').length := by
          conv_lhs => rw [← List.take_append_drop (c :: pre').length pat]
          rw [h2]
        have hsfx : pat.drop (c :: pre').length <:+ pat := ⟨c :: pre', hps.symm⟩
        have h4 : pat.drop (c :: pre').length ++ t = pat ++ rest := by
          have h5 := congrArg (List.drop (c :: pre').length) ht
          rw [List.drop_append_of_le_length (Nat.le_of_lt hlt), List.drop_left] at h5
          exact h5
        have hlen : (pat.drop (c :: pre').length).length ≤ pat.length := by
          rw [List.length_drop]; exact Nat.sub_le _ _
        have hpfx : pat.drop (c :: pre').length <+: pat := by
          have h6 : pat.drop (c :: pre').length =
              (pat ++ rest).take (pat.drop (c :: pre').length).length := by
            rw [← h4, List.take_left]
          rw [List.take_append_of_le_length hlen] at h6
          exact List.prefix_iff_eq_take.mpr h6
        have hpne : pat.drop (c :: pre').length ≠ [] := by
          intro h0
          have h7 : pat.length - (c :: pre').length = 0 := by
            rw [← List.length_drop, h0]; rfl
          exact Nat.lt_irrefl _ (Nat.lt_of_lt_of_le hlt (Nat.sub_eq_zero_iff_le.mp h7))
        have hppat : pat.drop (c :: pre').length ≠ pat := by
          intro h0
          have h8 : (pat.drop (c :: pre').length).length < pat.length := by
            rw [List.length_drop]
            exact Nat.sub_lt (Nat.lt_of_le_of_lt (Nat.zero_le _) hlt) (by simp)
          rw [h0] at h8
          exact Nat.lt_irrefl _ h8
        rcases hbl _ ((List.mem_inits _ pat).mpr hpfx) hsfx with h0 | h0
        · exact hpne h0
        · exact hppat h0

/-- Extraction from a well-placed tagged shape returns the explicit
inner span. -/
theorem extractTag_of_shape {opn cls pre inner rest : Str} (hon : opn ≠ [])
    (hcn : cls ≠ []) (hbo : Borderless opn) (hbc : Borderless cls)
    (hpre : ¬ opn <:+: pre) (hinner : ¬ cls <:+: inner) :
    extractTag opn cls (pre ++ opn ++ inner ++ cls ++ rest) = some inner := by
  have hshape : pre ++ opn ++ inner ++ cls ++ rest =
      pre ++ opn ++ (inner ++ cls ++ rest) := by simp [List.append_assoc]
  rw [hshape]
  unfold extractTag
  rw [splitFirst_append_pat hon hbo hpre]
  dsimp only
  rw [splitFirst_append_pat hcn hbc hinner]

theorem splitFirst_prefix {pat rest : Str} (hne : pat ≠ []) (hbl : Borderless pat) :
    splitFirst pat (pat ++ rest) = some ([], rest) := by
  have := @splitFirst_append_pat pat [] rest hne hbl
    (fun h => hne (List.infix_nil.mp h))
  simpa using this

/-- If `jsTrim` fixes a string then so do the one-sided trims. -/
theorem dropWhile_eq_self_of_jsTrim {s : Str} (h : jsTrim s = s) :
    s.dropWhile jsWhitespace = s ∧
      s.reverse.dropWhile jsWhitespace = s.reverse := by
  have h1 : (s.dropWhile jsWhitespace).length ≤ s.length :=
    (List.dropWhile_suffix jsWhitespace).sublist.length_le
  have h2 : (jsTrim s).length ≤ (s.dropWhile jsWhitespace).length := by
    unfold jsTrim
    rw [List.length_reverse]
    calc ((s.dropWhile jsWhitespace).reverse.dropWhile jsWhitespace).length
        ≤ (s.dropWhile jsWhitespace).reverse.length :=
          (List.dropWhile_suffix jsWhitespace).sublist.length_le
      _ = (s.dropWhile jsWhitespace).length := List.length_reverse _
  rw [h] at h2
  have heq : (s.dropWhile jsWhitespace).length = s.length :=
    Nat.le_antisymm h1 h2
  have hfix : s.dropWhile jsWhitespace = s :=
    (List.dropWhile_suffix jsWhitespace).sublist.eq_of_length heq
  refine ⟨hfix, ?_⟩
  have h3 : jsTrim s = (s.reverse.dropWhile jsWhitespace).reverse := by
    unfold jsTrim
    rw [hfix]
  rw [h] at h3
  have h4 := congrArg List.reverse h3
  rw [List.reverse_reverse] at h4
  exact h4.symm

/-- Trimming a string wrapped in single newlines recovers the string,
provided it is itself trim-invariant. -/
theorem jsTrim_newline_wrap {s : Str} (h : jsTrim s = s) :
    jsTrim ('\n' :: (s ++ ['\n'])) = s := by
  rcases dropWhile_eq_self_of_jsTrim h with ⟨hl, hr⟩
  cases s with
  | nil => rfl
  | cons c s' =>
    have hc : jsWhitespace c = false := by
      by_contra hcc
      rw [List.dropWhile_cons] at hl
      rw [eq_true_of_ne_false (fun hb => hcc hb)] at hl
      simp only [if_true] at hl
      have := congrArg List.length hl
      have hle : (s'.dropWhile jsWhitespace).length ≤ s'.length :=
        (List.dropWhile_suffix jsWhitespace).sublist.length_le
      simp only [List.length_cons] at this
      rw [this] at hle
      exact Nat.not_succ_le_self _ hle
    unfold jsTrim
    have e1 : List.dropWhile jsWhitespace ('\n' :: (c :: s' ++ ['\n'])) =
        c :: s' ++ ['\n'] := by
      rw [List.dropWhile_cons, if_pos (by decide)]
      rw [List.cons_append, List.dropWhile_cons, if_neg (by simp [hc])]
    rw [e1]
    have e2 : (c :: s' ++ ['\n']).reverse = '\n' :: (c :: s').reverse := by
      simp
    rw [e2]
    rw [List.dropWhile_cons, if_pos (by decide)]
    rw [hr, List.reverse_reverse]

/-- The trim in `handleSave` removes exactly the outermost newlines. -/
theorem handleSave_eq (d : ChapterDoc) :
    handleSave d =
      openTextTag ++ ('\n' :: d.text) ++ ('\n' :: closeTextTag) ++
        ('\n' :: openSettingsTag) ++
        ('\n' :: stringifySettings d.settings.summary d.settings.ageOffset d.settings.style) ++
        ('\n' :: closeSettingsTag) ++ ('\n' :: openCritiqueTag) ++ ('\n' :: d.critique) ++
        ('\n' :: closeCritiqueTag) := by
  unfold handleSave
  have hshape : (('\n' :: openTextTag) ++ ('\n' :: d.text) ++ ('\n' :: closeTextTag) ++
      ('\n' :: openSettingsTag) ++
      ('\n' :: stringifySettings d.settings.summary d.settings.ageOffset d.settings.style) ++
      ('\n' :: closeSettingsTag) ++ ('\n' :: openCritiqueTag) ++ ('\n' :: d.critique) ++
      ('\n' :: closeCritiqueTag) ++ ['\n']) =
      '\n' :: ((openTextTag ++ ('\n' :: d.text) ++ ('\n' :: closeTextTag) ++
        ('\n' :: openSettingsTag) ++
        ('\n' :: stringifySettings d.settings.summary d.settings.ageOffset d.settings.style) ++
        ('\n' :: closeSettingsTag) ++ ('\n' :: openCritiqueTag) ++ ('\n' :: d.critique) ++
        ('\n' :: closeCritiqueTag)) ++ ['\n']) := by
    simp [openTextTag, List.append_assoc]
  rw [hshape]
  set m := openTextTag ++ ('\n' :: d.text) ++ ('\n' :: closeTextTag) ++
    ('\n' :: openSettingsTag) ++
    ('\n' :: stringifySettings d.settings.summary d.settings.ageOffset d.settings.style) ++
    ('\n' :: closeSettingsTag) ++ ('\n' :: openCritiqueTag) ++ ('\n' :: d.critique) ++
    ('\n' :: closeCritiqueTag) with hm
  unfold jsTrim
  have hhead : ∃ t, m = '<' :: t := by
    rw [hm]
    simp [openTextTag, List.append_assoc]
  rcases hhead with ⟨t, ht⟩
  have e1 : List.dropWhile jsWhitespace ('\n' :: (m ++ ['\n'])) = m ++ ['\n'] := by
    rw [List.dropWhile_cons, if_pos (by decide), ht]
    rw [List.cons_append, List.dropWhile_cons, if_neg (by decide)]
  rw [e1]
  have hlast : ∃ t2, m.reverse = '>' :: t2 := by
    rw [hm]
    simp [closeCritiqueTag, List.append_assoc]
  rcases hlast with ⟨t2, ht2⟩
  have e2 : (m ++ ['\n']).reverse = '\n' :: m.reverse := by simp
  rw [e2, List.dropWhile_cons, if_pos (by decide), ht2,
    List.dropWhile_cons, if_neg (by decide), ← ht2, List.reverse_reverse]

theorem hexVal_hexDig : ∀ n, n < 16 → hexVal (hexDig n) = some n := by decide

theorem hexDig_ne_lt : ∀ n, n < 16 → hexDig n ≠ '<' := by decide

/-- Every escape chunk is either the character itself or a
backslash-led sequence that contains no `<`. -/
theorem escChar_eq_self_or (c : Char) :
    escChar c = [c] ∨ ('<' ∉ escChar c ∧ ∃ l, escChar c = '\\' :: l) := by
  unfold escChar
  split_ifs with h1 h2 h3 h4 h5 h6 h7 h8
  · right; exact ⟨by decide, _, rfl⟩
  · right; exact ⟨by decide, _, rfl⟩
  · right; exact ⟨by decide, _, rfl⟩
  · right; exact ⟨by decide, _, rfl⟩
  · right; exact ⟨by decide, _, rfl⟩
  · right; exact ⟨by decide, _, rfl⟩
  · right; exact ⟨by decide, _, rfl⟩
  · right
    refine ⟨?_, _, rfl⟩
    intro hm
    have hd1 : hexDig (c.toNat / 16) ≠ '<' := hexDig_ne_lt _ (by omega)
    have hd2 : hexDig (c.toNat % 16) ≠ '<' := hexDig_ne_lt _ (by omega)
    simp only [List.mem_cons, List.not_mem_nil, or_false] at hm
    rcases hm with h | h | h | h | h | h
    · exact absurd h.symm (by decide)
    · exact absurd h.symm (by decide)
    · exact absurd h.symm (by decide)
    · exact absurd h.symm (by decide)
    · exact hd1 h.symm
    · exact hd2 h.symm
  · left; rfl

/-- A backslash-free prefix of an escaped string is a prefix of the
original. -/
theorem prefix_escape {s pat : Str} (hb : '\\' ∉ pat)
    (h : pat <+: escapeChars s) : pat <+: s := by
  induction s generalizing pat with
  | nil => simpa [escapeChars] using h
  | cons c cs ih =>
    rw [escapeChars] at h
    rcases escChar_eq_self_or c with he | ⟨-, l, he⟩
    · rw [he] at h
      cases pat with
      | nil => exact List.nil_prefix
      | cons p ps =>
        rw [List.singleton_append] at h
        rcases List.cons_prefix_cons.mp h with ⟨rfl, hps⟩
        have hbs : '\\' ∉ ps := fun hm => hb (List.mem_cons_of_mem _ hm)
        exact List.cons_prefix_cons.mpr ⟨rfl, ih hbs hps⟩
    · rw [he] at h
      cases pat with
      | nil => exact List.nil_prefix
      | cons p ps =>
        rw [List.cons_append] at h
        rcases List.cons_prefix_cons.mp h with ⟨rfl, -⟩
        exact absurd (List.mem_cons_self _ _) hb

/-- Occurrences of a `<`-headed backslash-free pattern (of length at
least 2) in an escaped string come from occurrences in the original. -/
theorem infix_escape {s pat : Str} (hlen : 1 < pat.length)
    (hhead : ∃ t, pat = '<' :: t) (hb : '\\' ∉ pat)
    (h : pat <:+: escapeChars s) : pat <:+: s := by
  induction s with
  | nil =>
    rw [escapeChars, List.infix_nil] at h
    subst h
    simp at hlen
  | cons c cs ih =>
    rw [escapeChars] at h
    rcases infix_append_split h with h1 | h2 | ⟨w, p, hpat, hwne, hpne, hw, hp⟩
    · rcases escChar_eq_self_or c with he | ⟨hlt, l, he⟩
      · rw [he] at h1
        have := h1.sublist.length_le
        simp at this
        omega
      · rcases hhead with ⟨t, rfl⟩
        have hmem : '<' ∈ escChar c := h1.sublist.subset (List.mem_cons_self _ _)
        exact absurd hmem hlt
    · exact List.infix_cons (ih h2)
    · rcases hhead with ⟨t, hpt⟩
      have hwhead : ∃ t2, w = '<' :: t2 := by
        cases w with
        | nil => exact absurd rfl hwne
        | cons w0 ws =>
          rw [hpt, List.cons_append] at hpat
          rcases List.cons.injEq .. ▸ hpat with ⟨h0, -⟩
          exact ⟨ws, by rw [h0]⟩
      rcases escChar_eq_self_or c with he | ⟨hlt, l, he⟩
      · rw [he] at hw
        have hwc : w = [c] := by
          rcases hw with ⟨u, hu⟩
          cases u with
          | nil => simpa using hu
          | cons u0 us =>
            rw [List.cons_append] at hu
            rcases List.cons.injEq .. ▸ hu with ⟨-, h0⟩
            rcases List.append_eq_nil.mp h0 with ⟨-, h1⟩
            exact absurd h1 hwne
        rcases hwhead with ⟨t2, hwt⟩
        have hc : c = '<' := by rw [hwc] at hwt; exact (List.cons.injEq .. ▸ hwt).1
        have hbp : '\\' ∉ p :=
          fun hm => hb (by rw [hpat]; exact List.mem_append_right _ hm)
        have hp' : p <+: cs := prefix_escape hbp hp
        have : pat <+: c :: cs := by
          rw [hpat, hwc, hc, List.singleton_append]
          exact List.cons_prefix_cons.mpr ⟨rfl, hp'⟩
        exact this.isInfix
      · rw [he] at hw
        rcases hwhead with ⟨t2, rfl⟩
        have hmem : '<' ∈ escChar c := by
          rw [he]
          exact hw.sublist.subset (List.mem_cons_self _ _)
        exact absurd hmem hlt

theorem not_infix_escape {s pat : Str} (hlen : 1 < pat.length)
    (hhead : ∃ t, pat = '<' :: t) (hb : '\\' ∉ pat)
    (hs : ¬ pat <:+: s) : ¬ pat <:+: escapeChars s :=
  fun h => hs (infix_escape hlen hhead hb h)

/-- Decoding inverts QuoteJSONString escaping: reading a string-literal
body over `escapeChars s` followed by a closing quote recovers `s`. -/
theorem readStr_escape (s rest : Str) :
    readStr (escapeChars s ++ ('"' :: rest)) = some (s, rest) := by
  induction s with
  | nil =>
    rw [escapeChars, List.nil_append, readStr.eq_def]
    simp
  | cons c cs ih =>
    rw [escapeChars, List.append_assoc]
    unfold escChar
    split_ifs with h1 h2 h3 h4 h5 h6 h7 h8
    · subst h1
      simp only [List.cons_append, List.nil_append]
      rw [readStr.eq_def]
      simp [consStr, ih]
    · subst h2
      simp only [List.cons_append, List.nil_append]
      rw [readStr.eq_def]
      simp [consStr, ih]
    · subst h3
      simp only [List.cons_append, List.nil_append]
      rw [readStr.eq_def]
      simp [consStr, ih]
    · subst h4
      simp only [List.cons_append, List.nil_append]
      rw [readStr.eq_def]
      simp [consStr, ih]
    · subst h5
      simp only [List.cons_append, List.nil_append]
      rw [readStr.eq_def]
      simp [consStr, ih]
    · subst h6
      simp only [List.cons_append, List.nil_append]
      rw [readStr.eq_def]
      simp [consStr, ih]
    · subst h7
      simp only [List.cons_append, List.nil_append]
      rw [readStr.eq_def]
      simp [consStr, ih]
    · have e1 : hexVal (hexDig (c.toNat / 16)) = some (c.toNat / 16) :=
        hexVal_hexDig _ (by omega)
      have e2 : hexVal (hexDig (c.toNat % 16)) = some (c.toNat % 16) :=
        hexVal_hexDig _ (by omega)
      simp only [List.cons_append, List.nil_append]
      rw [readStr.eq_def]
      have e0 : hexVal '0' = some 0 := by decide
      simp only [consStr, ih, e0, e1, e2]
      have harith : ((0 * 16 + 0) * 16 + c.toNat / 16) * 16 + c.toNat % 16 = c.toNat := by
        omega
      have harith2 : c.toNat / 16 * 16 + c.toNat % 16 = c.toNat := by omega
      simp [consStr, harith, harith2, Char.ofNat_toNat]
    · simp only [List.singleton_append]
      rw [readStr.eq_def]
      simp [consStr, ih, h1, h2, h8]

/-- Parsing a quoted JSON string literal. -/
theorem parseVal_quoted (fuel : Nat) (s rest : Str) :
    parseVal (fuel + 1) ('"' :: (escapeChars s ++ ('"' :: rest))) =
      some (.str s, rest) := by
  simp [parseVal, readStr_escape]

theorem stringifySettings_eq (su ao st : Str) :
    stringifySettings su ao st =
      '{' :: ('\n' :: (' ' :: (' ' :: settingsBody1 su ao st))) := by
  simp [stringifySettings, settingsBody1, settingsBody2, settingsBody3,
    List.append_assoc]

theorem parseMembers_body1 (f : Nat) (su ao st : Str) :
    parseMembers (f + 4) (settingsBody1 su ao st) =
      some ([(keySummary, .str su), (keyAgeOffset, .str ao), (keyStyle, .str st)], []) := by
  have hhead3 : settingsBody3 st =
      '"' :: (escapeChars keyStyle ++ ('"' :: (':' :: (' ' ::
        ('"' :: (escapeChars st ++ ('"' :: ['\n', '}']))))))) := by
    simp [settingsBody3, quoteJson, List.append_assoc]
  have hhead2 : settingsBody2 ao st =
      '"' :: (escapeChars keyAgeOffset ++ ('"' :: (':' :: (' ' ::
        ('"' :: (escapeChars ao ++ ('"' :: (',' :: ('\n' :: (' ' :: (' ' ::
          settingsBody3 st))))))))))) := by
    simp [settingsBody2, quoteJson, List.append_assoc]
  have hhead1 : settingsBody1 su ao st =
      '"' :: (escapeChars keySummary ++ ('"' :: (':' :: (' ' ::
        ('"' :: (escapeChars su ++ ('"' :: (',' :: ('\n' :: (' ' :: (' ' ::
          settingsBody2 ao st))))))))))) := by
    simp [settingsBody1, quoteJson, List.append_assoc]
  rw [hhead1]
  simp [parseMembers, readStr_escape, parseVal_quoted, skipWs, jsonWs, hhead2, hhead3]

/-- Parsing the full pretty-printed settings object. -/
theorem parseVal_settings (f : Nat) (su ao st : Str) :
    parseVal (f + 5) (stringifySettings su ao st) =
      some (.obj [(keySummary, .str su), (keyAgeOffset, .str ao), (keyStyle, .str st)], []) := by
  rw [stringifySettings_eq]
  have hhead : ∃ t, settingsBody1 su ao st = '"' :: t := by
    refine ⟨escapeChars keySummary ++ ('"' :: (':' :: (' ' ::
      ('"' :: (escapeChars su ++ ('"' :: (',' :: ('\n' :: (' ' :: (' ' ::
        settingsBody2 ao st)))))))))), ?_⟩
    simp [settingsBody1, quoteJson, List.append_assoc]
  rcases hhead with ⟨t, ht⟩
  have hws : List.dropWhile jsonWs (settingsBody1 su ao st) = settingsBody1 su ao st := by
    rw [ht]
    simp [jsonWs]
  have hm := parseMembers_body1 f su ao st
  rw [ht] at hm
  simp [parseVal, skipWs, jsonWs, hws, ht, hm]

/-- `JSON.parse` succeeds on the exact serializer output. -/
theorem jsonParse_stringify (su ao st : Str) :
    jsonParse (stringifySettings su ao st) =
      some (.obj [(keySummary, .str su), (keyAgeOffset, .str ao), (keyStyle, .str st)]) := by
  unfold jsonParse
  have hlen : 4 ≤ (stringifySettings su ao st).length := by
    rw [stringifySettings_eq]
    simp
  have hfuel : (stringifySettings su ao st).length + 1 =
      ((stringifySettings su ao st).length - 4) + 5 := by omega
  have hws : skipWs (stringifySettings su ao st) = stringifySettings su ao st := by
    rw [stringifySettings_eq]
    simp [skipWs, jsonWs]
  rw [hws, hfuel, parseVal_settings]
  simp [skipWs]

theorem settingsObj_summary (su ao st : Str) :
    jsGetStrField (Json.obj [(keySummary, .str su), (keyAgeOffset, .str ao),
      (keyStyle, .str st)]) keySummary = su := by
  simp [jsGetStrField, List.lookup]

theorem settingsObj_ageOffset (su ao st : Str) :
    jsGetStrField (Json.obj [(keySummary, .str su), (keyAgeOffset, .str ao),
      (keyStyle, .str st)]) keyAgeOffset = ao := by
  simp [jsGetStrField, List.lookup, keySummary, keyAgeOffset]

theorem settingsObj_style (su ao st : Str) :
    jsGetStrField (Json.obj [(keySummary, .str su), (keyAgeOffset, .str ao),
      (keyStyle, .str st)]) keyStyle = st := by
  simp [jsGetStrField, List.lookup, keySummary, keyAgeOffset, keyStyle]

theorem not_infix_cons' {pat l : Str} {c : Char} (hne : pat ≠ [])
    (hh : pat.head? ≠ some c) (h : ¬ pat <:+: l) : ¬ pat <:+: c :: l := by
  intro hx
  rcases List.infix_cons_iff.mp hx with hp | hi
  · cases pat with
    | nil => exact hne rfl
    | cons p0 ps =>
      rcases List.cons_prefix_cons.mp hp with ⟨rfl, -⟩
      exact hh rfl
  · exact h hi

/-- Append-step: the right part starts with a character that does not
occur in the pattern, so no occurrence crosses into it. -/
theorem not_infix_append_chead {pat a b : Str} (c : Char) (hc : c ∉ pat)
    (hbh : ∃ t, b = c :: t) (ha : ¬ pat <:+: a) (hb : ¬ pat <:+: b) :
    ¬ pat <:+: a ++ b := by
  refine not_infix_append_inits ha hb ?_
  intro p hp
  cases p with
  | nil => exact Or.inl rfl
  | cons p0 ps =>
    refine Or.inr fun hsfx => ?_
    rcases hbh with ⟨t, rfl⟩
    have hpre := (List.mem_inits _ _).mp hp
    rcases List.cons_prefix_cons.mp hpre with ⟨rfl, -⟩
    exact hc (hsfx.sublist.subset (List.mem_cons_self _ _))

/-- Append-step: the left part contains no `<` while the pattern starts
with `<`, so no occurrence starts in or crosses out of it. -/
theorem not_infix_append_ltfree {pat a b : Str} (hhead : ∃ t, pat = '<' :: t)
    (ha : '<' ∉ a) (hb : ¬ pat <:+: b) : ¬ pat <:+: a ++ b := by
  have hna : ¬ pat <:+: a := by
    intro h
    rcases hhead with ⟨t, rfl⟩
    exact ha (h.sublist.subset (List.mem_cons_self _ _))
  refine not_infix_append_tails hna hb ?_
  intro s hs
  cases s with
  | nil => exact Or.inl rfl
  | cons s0 ss =>
    refine Or.inr fun hp => ?_
    rcases hhead with ⟨t, ht⟩
    rw [ht] at hp
    rcases List.cons_prefix_cons.mp hp with ⟨rfl, -⟩
    exact ha (((List.mem_tails _ _).mp hs).sublist.subset (List.mem_cons_self _ _))

/-- No occurrence in a single-newline-wrapped string when the pattern
avoids newlines. -/
theorem not_infix_nl_wrap {pat s : Str} (hne : pat ≠ []) (hh : pat.head? ≠ some '\n')
    (hnl : '\n' ∉ pat) (hs : ¬ pat <:+: s) : ¬ pat <:+: '\n' :: (s ++ ['\n']) := by
  refine not_infix_cons' hne hh ?_
  refine not_infix_append_chead '\n' hnl ⟨[], rfl⟩ hs ?_
  intro h
  rcases List.infix_cons_iff.mp h with hp | hi
  · cases pat with
    | nil => exact hne rfl
    | cons p0 ps =>
      rcases List.cons_prefix_cons.mp hp with ⟨rfl, -⟩
      exact hnl (List.mem_cons_self _ _)
  · rw [List.infix_nil] at hi
    exact hne hi

/-- No occurrence of a `<`-headed quote-free pattern in a JSON string
literal whose payload avoids it. -/
theorem not_infix_quoteJson {pat x : Str} (hlen : 1 < pat.length)
    (hhead : ∃ t, pat = '<' :: t) (hb : '\\' ∉ pat) (hq : '"' ∉ pat)
    (hx : ¬ pat <:+: x) : ¬ pat <:+: quoteJson x := by
  have hne : pat ≠ [] := by
    intro h0
    rw [h0] at hlen
    simp at hlen
  have hh : pat.head? ≠ some '"' := by
    rcases hhead with ⟨t, rfl⟩
    simp
  unfold quoteJson
  refine not_infix_cons' hne hh ?_
  refine not_infix_append_chead '"' hq ⟨[], rfl⟩ (not_infix_escape hlen hhead hb hx) ?_
  intro h
  rcases List.infix_cons_iff.mp h with hp | hi
  · cases pat with
    | nil => exact hne rfl
    | cons p0 ps =>
      rcases List.cons_prefix_cons.mp hp with ⟨rfl, -⟩
      exact hq (List.mem_cons_self _ _)
  · rw [List.infix_nil] at hi
    exact hne hi

/-- No occurrence of a suitable pattern in the pretty-printed settings
JSON when the three field payloads avoid it. -/
theorem not_infix_stringify {pat su ao st : Str} (hlen : 1 < pat.length)
    (hhead : ∃ t, pat = '<' :: t) (hb : '\\' ∉ pat) (hq : '"' ∉ pat)
    (hcol : ':' ∉ pat) (hcom : ',' ∉ pat) (hnl : '\n' ∉ pat)
    (hsu : ¬ pat <:+: su) (hao : ¬ pat <:+: ao) (hst : ¬ pat <:+: st) :
    ¬ pat <:+: stringifySettings su ao st := by
  have hne : pat ≠ [] := by
    intro h0
    rw [h0] at hlen
    simp at hlen
  have hhd : ∀ c : Char, c ≠ '<' → pat.head? ≠ some c := by
    rcases hhead with ⟨t, rfl⟩
    intro c hc
    simp
    exact fun h => hc h.symm
  rw [stringifySettings_eq]
  refine not_infix_cons' hne (hhd _ (by decide)) ?_
  refine not_infix_cons' hne (hhd _ (by decide)) ?_
  refine not_infix_cons' hne (hhd _ (by decide)) ?_
  refine not_infix_cons' hne (hhd _ (by decide)) ?_
  unfold settingsBody1
  refine not_infix_append_chead ':' hcol ⟨_, rfl⟩ ?_ ?_
  · exact not_infix_quoteJson hlen hhead hb hq (by
      rcases hhead with ⟨t, rfl⟩
      exact fun h => absurd (h.sublist.subset (List.mem_cons_self _ _))
        (by decide))
  refine not_infix_append_ltfree hhead (by decide) ?_
  refine not_infix_append_chead ',' hcom ⟨'\n' :: (' ' :: (' ' :: settingsBody2 ao st)), by simp⟩
    (not_infix_quoteJson hlen hhead hb hq hsu) ?_
  refine not_infix_append_ltfree hhead (by decide) ?_
  unfold settingsBody2
  refine not_infix_append_chead ':' hcol ⟨_, rfl⟩ ?_ ?_
  · exact not_infix_quoteJson hlen hhead hb hq (by
      rcases hhead with ⟨t, rfl⟩
      exact fun h => absurd (h.sublist.subset (List.mem_cons_self _ _))
        (by decide))
  refine not_infix_append_ltfree hhead (by decide) ?_
  refine not_infix_append_chead ',' hcom ⟨'\n' :: (' ' :: (' ' :: settingsBody3 st)), by simp⟩
    (not_infix_quoteJson hlen hhead hb hq hao) ?_
  refine not_infix_append_ltfree hhead (by decide) ?_
  unfold settingsBody3
  refine not_infix_append_chead ':' hcol ⟨_, rfl⟩ ?_ ?_
  · exact not_infix_quoteJson hlen hhead hb hq (by
      rcases hhead with ⟨t, rfl⟩
      exact fun h => absurd (h.sublist.subset (List.mem_cons_self _ _))
        (by decide))
  refine not_infix_append_ltfree hhead (by decide) ?_
  refine not_infix_append_chead '\n' hnl ⟨['\x7d'], rfl⟩
    (not_infix_quoteJson hlen hhead hb hq hst) ?_
  intro h
  have hlen2 := h.sublist.length_le
  simp at hlen2
  have heq : pat = ['\n', '\x7d'] := h.sublist.eq_of_length (by simp; omega)
  rw [heq] at hnl
  simp at hnl

theorem handleSave_serializedForm (d : ChapterDoc) :
    handleSave d = serializedForm d.text d.settings.summary d.settings.ageOffset
      d.settings.style d.critique := by
  rw [handleSave_eq]
  rfl

theorem extract_text_serialized {text su ao st critique : Str}
    (hc : ¬ closeTextTag <:+: text) :
    extractTag openTextTag closeTextTag (serializedForm text su ao st critique) =
      some ('\n' :: (text ++ ['\n'])) := by
  have hshape : serializedForm text su ao st critique =
      ([] : Str) ++ openTextTag ++ ('\n' :: (text ++ ['\n'])) ++ closeTextTag ++
        (('\n' :: openSettingsTag) ++ ('\n' :: stringifySettings su ao st) ++
         ('\n' :: closeSettingsTag) ++ ('\n' :: openCritiqueTag) ++ ('\n' :: critique) ++
         ('\n' :: closeCritiqueTag)) := by
    simp [serializedForm, List.append_assoc]
  rw [hshape]
  exact extractTag_of_shape (by decide) (by decide) (by decide) (by decide)
    (by decide) (not_infix_nl_wrap (by decide) (by decide) (by decide) hc)

theorem extract_settings_serialized {text su ao st critique : Str}
    (htext : ¬ openSettingsTag <:+: text)
    (hsu : ¬ closeSettingsTag <:+: su) (hao : ¬ closeSettingsTag <:+: ao)
    (hst : ¬ closeSettingsTag <:+: st) :
    extractTag openSettingsTag closeSettingsTag (serializedForm text su ao st critique) =
      some ('\n' :: (stringifySettings su ao st ++ ['\n'])) := by
  have hshape : serializedForm text su ao st critique =
      (openTextTag ++ (('\n' :: text) ++ (('\n' :: closeTextTag) ++ ['\n']))) ++
        openSettingsTag ++ ('\n' :: (stringifySettings su ao st ++ ['\n'])) ++
        closeSettingsTag ++
        (('\n' :: openCritiqueTag) ++ ('\n' :: critique) ++ ('\n' :: closeCritiqueTag)) := by
    simp [serializedForm, List.append_assoc]
  rw [hshape]
  have hpre : ¬ openSettingsTag <:+:
      openTextTag ++ (('\n' :: text) ++ (('\n' :: closeTextTag) ++ ['\n'])) := by
    refine not_infix_append_chead '\n' (by decide) ⟨_, rfl⟩ (by decide) ?_
    refine not_infix_append_chead '\n' (by decide) ⟨_, rfl⟩ ?_ ?_
    · exact not_infix_cons' (by decide) (by decide) htext
    · decide
  have hinner : ¬ closeSettingsTag <:+: '\n' :: (stringifySettings su ao st ++ ['\n']) := by
    refine not_infix_nl_wrap (by decide) (by decide) (by decide) ?_
    exact not_infix_stringify (by decide) ⟨_, rfl⟩ (by decide) (by decide) (by decide)
      (by decide) (by decide) hsu hao hst
  exact extractTag_of_shape (by decide) (by decide) (by decide) (by decide) hpre hinner

theorem extract_critique_serialized {text su ao st critique : Str}
    (htext : ¬ openCritiqueTag <:+: text)
    (hsu : ¬ openCritiqueTag <:+: su) (hao : ¬ openCritiqueTag <:+: ao)
    (hst : ¬ openCritiqueTag <:+: st)
    (hcrit : ¬ closeCritiqueTag <:+: critique) :
    extractTag openCritiqueTag closeCritiqueTag (serializedForm text su ao st critique) =
      some ('\n' :: (critique ++ ['\n'])) := by
  have hshape : serializedForm text su ao st critique =
      (openTextTag ++ (('\n' :: text) ++ (('\n' :: closeTextTag) ++
        (('\n' :: openSettingsTag) ++ (('\n' :: stringifySettings su ao st) ++
        (('\n' :: closeSettingsTag) ++ ['\n'])))))) ++
        openCritiqueTag ++ ('\n' :: (critique ++ ['\n'])) ++ closeCritiqueTag ++ [] := by
    simp [serializedForm, List.append_assoc]
  rw [hshape]
  have hJ : ¬ openCritiqueTag <:+: stringifySettings su ao st :=
    not_infix_stringify (by decide) ⟨_, rfl⟩ (by decide) (by decide) (by decide)
      (by decide) (by decide) hsu hao hst
  have hpre : ¬ openCritiqueTag <:+:
      openTextTag ++ (('\n' :: text) ++ (('\n' :: closeTextTag) ++
        (('\n' :: openSettingsTag) ++ (('\n' :: stringifySettings su ao st) ++
        (('\n' :: closeSettingsTag) ++ ['\n'])))))  := by
    refine not_infix_append_chead '\n' (by decide) ⟨_, rfl⟩ (by decide) ?_
    refine not_infix_append_chead '\n' (by decide) ⟨_, rfl⟩ ?_ ?_
    · exact not_infix_cons' (by decide) (by decide) htext
    refine not_infix_append_chead '\n' (by decide) ⟨_, rfl⟩ (by decide) ?_
    refine not_infix_append_chead '\n' (by decide) ⟨_, rfl⟩ (by decide) ?_
    refine not_infix_append_chead '\n' (by decide) ⟨_, rfl⟩ ?_ ?_
    · exact not_infix_cons' (by decide) (by decide) hJ
    decide
  exact extractTag_of_shape (by decide) (by decide) (by decide) (by decide) hpre
    (not_infix_nl_wrap (by decide) (by decide) (by decide) hcrit)

theorem jsTrim_of_ends {mid : Str} {c d : Char}
    (hc : jsWhitespace c = false) (hd : jsWhitespace d = false) :
    jsTrim ((c :: mid) ++ [d]) = (c :: mid) ++ [d] := by
  unfold jsTrim
  have h1 : List.dropWhile jsWhitespace ((c :: mid) ++ [d]) = (c :: mid) ++ [d] := by
    rw [List.cons_append, List.dropWhile_cons, if_neg (by simp [hc])]
  rw [h1]
  have h2 : ((c :: mid) ++ [d]).reverse = d :: (c :: mid).reverse := by simp
  rw [h2, List.dropWhile_cons, if_neg (by simp [hd]), ← h2, List.reverse_reverse]

theorem stringifySettings_shape (su ao st : Str) :
    stringifySettings su ao st =
      ('\x7b' :: ('\n' :: (' ' :: (' ' :: (quoteJson keySummary ++ ([':', ' '] ++
        (quoteJson su ++ ([',', '\n', ' ', ' '] ++ (quoteJson keyAgeOffset ++ ([':', ' '] ++
        (quoteJson ao ++ ([',', '\n', ' ', ' '] ++ (quoteJson keyStyle ++ ([':', ' '] ++
        (quoteJson st ++ ['\n']))))))))))))))) ++ ['\x7d'] := by
  simp [stringifySettings, List.append_assoc]

theorem jsTrim_stringify (su ao st : Str) :
    jsTrim (stringifySettings su ao st) = stringifySettings su ao st := by
  rw [stringifySettings_shape]
  exact jsTrim_of_ends (by decide) (by decide)

/-- Round-trip: parsing the saved form of a chapter document recovers
the document, under the hypotheses that the text avoids `</text>`,
`<settings>` and `<critique>`, the critique avoids `</critique>`, the
settings fields avoid `</settings>` and `<critique>`, and text and
critique are unchanged by trimming. -/
theorem parseChapter_handleSave (d : ChapterDoc)
    (ht1 : ¬ closeTextTag <:+: d.text) (ht2 : ¬ openSettingsTag <:+: d.text)
    (ht3 : ¬ openCritiqueTag <:+: d.text) (ht4 : jsTrim d.text = d.text)
    (hc1 : ¬ closeCritiqueTag <:+: d.critique) (hc2 : jsTrim d.critique = d.critique)
    (hs1 : ¬ closeSettingsTag <:+: d.settings.summary)
    (hs2 : ¬ openCritiqueTag <:+: d.settings.summary)
    (ha1 : ¬ closeSettingsTag <:+: d.settings.ageOffset)
    (ha2 : ¬ openCritiqueTag <:+: d.settings.ageOffset)
    (hy1 : ¬ closeSettingsTag <:+: d.settings.style)
    (hy2 : ¬ openCritiqueTag <:+: d.settings.style) :
    parseChapter (handleSave d) = d := by
  obtain ⟨text, ⟨su, ao, st⟩, critique⟩ := d
  simp only at ht1 ht2 ht3 ht4 hc1 hc2 hs1 hs2 ha1 ha2 hy1 hy2
  rw [handleSave_serializedForm]
  simp only
  unfold parseChapter
  have hcont : containsSub openTextTag (serializedForm text su ao st critique) = true := by
    rw [ containsSub_iff_infix]
    have hsh : serializedForm text su ao st critique = openTextTag ++
        (('\n' :: text) ++ (('\n' :: closeTextTag) ++ (('\n' :: openSettingsTag) ++
         (('\n' :: stringifySettings su ao st) ++ (('\n' :: closeSettingsTag) ++
          (('\n' :: openCritiqueTag) ++ (('\n' :: critique) ++
           ('\n' :: closeCritiqueTag)))))))) := by
      simp [serializedForm, List.append_assoc]
    rw [hsh]
    exact (List.prefix_append _ _).isInfix
  rw [if_neg (by simp [hcont])]
  rw [extract_text_serialized ht1]
  rw [extract_settings_serialized ht2 hs1 ha1 hy1]
  rw [extract_critique_serialized ht3 hs2 ha2 hy2 hc1]
  have htr2 : jsTrim ('\n' :: (stringifySettings su ao st ++ ['\n'])) =
      stringifySettings su ao st := jsTrim_newline_wrap (jsTrim_stringify su ao st)
  simp only [jsTrim_newline_wrap ht4, jsTrim_newline_wrap hc2, htr2,
    jsonParse_stringify, settingsObj_summary, settingsObj_ageOffset, settingsObj_style]

/-- C1: (amended) for every ChapterDocument whose text contains no
literal `</text>`, `<settings>` or `<critique>`, whose critique contains
no `</critique>`, whose settings fields contain no `</settings>` or
`<critique>`, and whose text and critique are unchanged by trimming,
parsing the string produced by `handleSave` yields the document back:
the text section, the three settings fields recovered from the
pretty-printed JSON, and the critique section all equal the originals. -/
theorem C1_parse_serialize_roundtrip (d : ChapterDoc)
    (ht1 : ¬ closeTextTag <:+: d.text) (ht2 : ¬ openSettingsTag <:+: d.text)
    (ht3 : ¬ openCritiqueTag <:+: d.text) (ht4 : jsTrim d.text = d.text)
    (hc1 : ¬ closeCritiqueTag <:+: d.critique) (hc2 : jsTrim d.critique = d.critique)
    (hs1 : ¬ closeSettingsTag <:+: d.settings.summary)
    (hs2 : ¬ openCritiqueTag <:+: d.settings.summary)
    (ha1 : ¬ closeSettingsTag <:+: d.settings.ageOffset)
    (ha2 : ¬ openCritiqueTag <:+: d.settings.ageOffset)
    (hy1 : ¬ closeSettingsTag <:+: d.settings.style)
    (hy2 : ¬ openCritiqueTag <:+: d.settings.style) :
    parseChapter (handleSave d) = d :=
  parseChapter_handleSave d ht1 ht2 ht3 ht4 hc1 hc2 hs1 hs2 ha1 ha2 hy1 hy2

/-- C1 witness: the round-trip theorem applied at a concrete document. -/
theorem C1_parse_serialize_roundtrip_witness :
    parseChapter (handleSave
      { text := ['T', 'a', 'l', 'e'],
        settings := { summary := ['s', '<'], ageOffset := ['-', '5'], style := ['"', 'y'] },
        critique := ['o', 'k'] }) =
      { text := ['T', 'a', 'l', 'e'],
        settings := { summary := ['s', '<'], ageOffset := ['-', '5'], style := ['"', 'y'] },
        critique := ['o', 'k'] } :=
  C1_parse_serialize_roundtrip _ (by decide) (by decide) (by decide) (by decide)
    (by decide) (by decide) (by decide) (by decide) (by decide) (by decide)
    (by decide) (by decide)

/-- C1 counterexample: the claim as stated (fields only required to be
free of the three closing tags `</text>`, `</settings>`, `</critique>`)
is false: a text equal to the open tag `<critique>` contains none of the
closing tags, yet the round-trip corrupts the critique section. -/
theorem C1_parse_serialize_counterexample :
    (containsSub closeTextTag ['<', 'c', 'r', 'i', 't', 'i', 'q', 'u', 'e', '>'] = false ∧
     containsSub closeSettingsTag ['<', 'c', 'r', 'i', 't', 'i', 'q', 'u', 'e', '>'] = false ∧
     containsSub closeCritiqueTag ['<', 'c', 'r', 'i', 't', 'i', 'q', 'u', 'e', '>'] = false) ∧
    parseChapter (handleSave
      { text := ['<', 'c', 'r', 'i', 't', 'i', 'q', 'u', 'e', '>'],
        settings := defaultSettings, critique := [] }) ≠
      { text := ['<', 'c', 'r', 'i', 't', 'i', 'q', 'u', 'e', '>'],
        settings := defaultSettings, critique := [] } := by
  decide

/-- C8: a raw string without a `<text>` open tag parses to a document
whose text is the whole raw string unchanged, with default settings and
empty critique (legacy/untagged fallback). -/
theorem C8_untagged_fallback (raw : Str)
    (h : containsSub openTextTag raw = false) :
    parseChapter raw = { text := raw, settings := defaultSettings, critique := [] } := by
  unfold parseChapter
  rw [if_pos h]

/-- C8 witness: `parse("just some prose")`. -/
theorem C8_untagged_fallback_witness :
    parseChapter ['j', 'u', 's', 't', ' ', 's', 'o', 'm', 'e', ' ',
        'p', 'r', 'o', 's', 'e'] =
      { text := ['j', 'u', 's', 't', ' ', 's', 'o', 'm', 'e', ' ',
          'p', 'r', 'o', 's', 'e'],
        settings := defaultSettings, critique := [] } :=
  C8_untagged_fallback _ (by decide)

/-- C7: when the settings section's trimmed payload is not valid JSON,
parsing does not throw (the model is a total function): the whole
trimmed payload becomes the legacy summary and ageOffset and style stay
at their empty defaults. -/
theorem C7_settings_json_fallback (raw inner : Str)
    (h1 : containsSub openTextTag raw = true)
    (h2 : extractTag openSettingsTag closeSettingsTag raw = some inner)
    (h3 : jsonParse (jsTrim inner) = none) :
    (parseChapter raw).settings =
      { summary := jsTrim inner, ageOffset := [], style := [] } := by
  unfold parseChapter
  rw [if_neg (by simp [h1])]
  simp only [h2, h3]

/-- C7 witness: `parse("<text>T</text><settings>not json</settings>")`
yields `settings.summary = "not json"` with the other fields empty. -/
theorem C7_settings_json_fallback_witness :
    (parseChapter (['<', 't', 'e', 'x', 't', '>', 'T', '<', '/', 't', 'e', 'x', 't', '>'] ++
      (openSettingsTag ++ (['n', 'o', 't', ' ', 'j', 's', 'o', 'n'] ++
        closeSettingsTag)))).settings =
      { summary := ['n', 'o', 't', ' ', 'j', 's', 'o', 'n'], ageOffset := [],
        style := [] } :=
  C7_settings_json_fallback _ ['n', 'o', 't', ' ', 'j', 's', 'o', 'n']
    (by decide) (by rfl) (by rfl)

/-- C2: while a rewrite/shorten/lengthen session is in flight
(`isRewritingRef = true`), a second request of any mode is a no-op: the
synchronous prefix already refuses (so the guard does not depend on any
asynchronous step), no selection is deleted, no prompt is assembled or
dispatched, and the state — document included — is unchanged; hence
only the first session's chunks are ever applied. -/
theorem C2_reentrancy_guard (mode : RewriteMode) (ctx : Str) (s : CardState)
    (h : s.isRewritingRef = true) :
    runRewriteSync mode s = (s, none) ∧ runRewrite mode ctx s = s := by
  have h1 : runRewriteSync mode s = (s, none) := by
    unfold runRewriteSync
    rw [if_pos (by simp [h])]
  exact ⟨h1, by unfold runRewrite; rw [h1]⟩

/-- C2 witness. -/
theorem C2_reentrancy_guard_witness :
    runRewriteSync RewriteMode.rewrite
        { editor := { doc := ['a', 'b'], selFrom := 0, selTo := 1 },
          isRewriting := true, isRewritingRef := true, style := [],
          dispatched := [] } =
      ({ editor := { doc := ['a', 'b'], selFrom := 0, selTo := 1 },
         isRewriting := true, isRewritingRef := true, style := [],
         dispatched := [] }, none) ∧
    runRewrite RewriteMode.rewrite ['c']
        { editor := { doc := ['a', 'b'], selFrom := 0, selTo := 1 },
          isRewriting := true, isRewritingRef := true, style := [],
          dispatched := [] } =
      { editor := { doc := ['a', 'b'], selFrom := 0, selTo := 1 },
        isRewriting := true, isRewritingRef := true, style := [],
        dispatched := [] } :=
  C2_reentrancy_guard RewriteMode.rewrite ['c'] _ (by decide)

/-- C9: a rewrite/shorten/lengthen request with an empty selection is a
silent no-op: no deletion, no prompt assembly, no dispatch, the
in-flight flag stays false, and no error is reported (the state is
returned unchanged). -/
theorem C9_empty_selection_noop (mode : RewriteMode) (ctx : Str) (s : CardState)
    (hflag : s.isRewritingRef = false)
    (hsel : s.editor.selFrom = s.editor.selTo) :
    runRewrite mode ctx s = s ∧ runRewriteSync mode s = (s, none) := by
  have h1 : runRewriteSync mode s = (s, none) := by
    unfold runRewriteSync
    rw [if_neg (by simp [hflag]), if_pos hsel]
  exact ⟨by unfold runRewrite; rw [h1], h1⟩

/-- C9 witness. -/
theorem C9_empty_selection_noop_witness :
    runRewrite RewriteMode.shorter ['c']
        { editor := { doc := ['a', 'b'], selFrom := 1, selTo := 1 },
          isRewriting := false, isRewritingRef := false, style := ['s'],
          dispatched := [] } =
      { editor := { doc := ['a', 'b'], selFrom := 1, selTo := 1 },
        isRewriting := false, isRewritingRef := false, style := ['s'],
        dispatched := [] } ∧
    runRewriteSync RewriteMode.shorter
        { editor := { doc := ['a', 'b'], selFrom := 1, selTo := 1 },
          isRewriting := false, isRewritingRef := false, style := ['s'],
          dispatched := [] } =
      ({ editor := { doc := ['a', 'b'], selFrom := 1, selTo := 1 },
         isRewriting := false, isRewritingRef := false, style := ['s'],
         dispatched := [] }, none) :=
  C9_empty_selection_noop RewriteMode.shorter ['c'] _ (by decide) (by decide)

/-- Streaming chunks into an in-flight session with a collapsed cursor
insert contiguously at the insertion point. -/
theorem foldl_onRewriteChunk (cs : List Str) (s : CardState)
    (hflag : s.isRewritingRef = true) (hsel : s.editor.selTo = s.editor.selFrom)
    (hle : s.editor.selFrom ≤ s.editor.doc.length) :
    cs.foldl (fun st c => onRewriteChunk c st) s =
      { s with editor :=
          { doc := s.editor.doc.take s.editor.selFrom ++ cs.flatten ++
              s.editor.doc.drop s.editor.selFrom,
            selFrom := s.editor.selFrom + cs.flatten.length,
            selTo := s.editor.selFrom + cs.flatten.length } } := by
  induction cs generalizing s with
  | nil =>
    obtain ⟨⟨d, f, t⟩, r1, r2, st, dp⟩ := s
    simp only at hsel hle
    subst hsel
    simp [List.take_append_drop]
  | cons c cs ih =>
    rw [List.foldl_cons]
    have hstep : onRewriteChunk c s =
        { s with editor := insertContent c s.editor } := by
      unfold onRewriteChunk
      rw [if_neg (by simp [hflag])]
    rw [hstep]
    have htake : (s.editor.doc.take s.editor.selFrom).length = s.editor.selFrom := by
      rw [List.length_take]
      omega
    rw [ih]
    · unfold insertContent
      simp only [hsel]
      congr 1
      have hshape : s.editor.doc.take s.editor.selFrom ++ c ++
          s.editor.doc.drop s.editor.selFrom =
          (s.editor.doc.take s.editor.selFrom ++ c) ++
            s.editor.doc.drop s.editor.selFrom := by
        simp [List.append_assoc]
      have hlen2 : (s.editor.doc.take s.editor.selFrom ++ c).length =
          s.editor.selFrom + c.length := by
        simp [htake]
      congr 1
      · rw [hshape, List.take_left' hlen2, List.drop_left' hlen2]
        simp [List.append_assoc]
      · simp
        omega
      · simp
        omega
    · simp [insertContent, hflag]
    · simp [insertContent]
    · simp [insertContent, hsel, htake]

/-- C4: an in-flight rewrite session that receives a dispatcher Error
with message `m` after a prefix of chunks was applied ends with the
document containing the previously inserted chunks followed by the
literal ` [Rewrite Error: m] ` marker at the insertion point, and with
both the reentrancy ref and the UI flag back at false so a new request
can start. -/
theorem C4_error_marker (s : CardState) (cs : List Str) (m : Str)
    (hflag : s.isRewritingRef = true) (hsel : s.editor.selTo = s.editor.selFrom)
    (hle : s.editor.selFrom ≤ s.editor.doc.length) :
    (onRewriteError m (cs.foldl (fun st c => onRewriteChunk c st) s)).editor.doc =
      s.editor.doc.take s.editor.selFrom ++ cs.flatten ++ rewriteErrorMarker m ++
        s.editor.doc.drop s.editor.selFrom ∧
    (onRewriteError m (cs.foldl (fun st c => onRewriteChunk c st) s)).isRewritingRef
      = false ∧
    (onRewriteError m (cs.foldl (fun st c => onRewriteChunk c st) s)).isRewriting
      = false := by
  rw [foldl_onRewriteChunk cs s hflag hsel hle]
  have htake : (s.editor.doc.take s.editor.selFrom).length = s.editor.selFrom := by
    rw [List.length_take]
    omega
  refine ⟨?_, rfl, rfl⟩
  unfold onRewriteError insertContent
  simp only
  have hlen2 : (s.editor.doc.take s.editor.selFrom ++ cs.flatten).length =
      s.editor.selFrom + cs.flatten.length := by
    simp [htake]
  have hshape : s.editor.doc.take s.editor.selFrom ++ cs.flatten ++
      s.editor.doc.drop s.editor.selFrom =
      (s.editor.doc.take s.editor.selFrom ++ cs.flatten) ++
        s.editor.doc.drop s.editor.selFrom := by
    simp [List.append_assoc]
  rw [hshape, List.take_left' hlen2, List.drop_left' hlen2]

/-- C4 witness: two chunks then `Error("boom")` on a session whose
selection was deleted at position 1. -/
theorem C4_error_marker_witness :
    (onRewriteError ['b', 'o', 'o', 'm']
        ([['x'], ['y', 'z']].foldl (fun st c => onRewriteChunk c st)
          { editor := { doc := ['a', 'b'], selFrom := 1, selTo := 1 },
            isRewriting := true, isRewritingRef := true, style := [],
            dispatched := [] })).editor.doc =
      ['a'].take 1 ++ ['x', 'y', 'z'] ++ rewriteErrorMarker ['b', 'o', 'o', 'm'] ++ ['b'] ∧
    (onRewriteError ['b', 'o', 'o', 'm']
        ([['x'], ['y', 'z']].foldl (fun st c => onRewriteChunk c st)
          { editor := { doc := ['a', 'b'], selFrom := 1, selTo := 1 },
            isRewriting := true, isRewritingRef := true, style := [],
            dispatched := [] })).isRewritingRef = false ∧
    (onRewriteError ['b', 'o', 'o', 'm']
        ([['x'], ['y', 'z']].foldl (fun st c => onRewriteChunk c st)
          { editor := { doc := ['a', 'b'], selFrom := 1, selTo := 1 },
            isRewriting := true, isRewritingRef := true, style := [],
            dispatched := [] })).isRewriting = false := by
  have h := C4_error_marker
    { editor := { doc := ['a', 'b'], selFrom := 1, selTo := 1 },
      isRewriting := true, isRewritingRef := true, style := [], dispatched := [] }
    [['x'], ['y', 'z']] ['b', 'o', 'o', 'm'] (by decide) (by decide) (by decide)
  simpa using h

theorem emitLoop_eq (cs : List Str) (f : Option Str) :
    emitLoop cs f =
      cs.map DispatchEv.chunk ++
        [match f with | none => DispatchEv.done | some m => DispatchEv.err m] := by
  induction cs with
  | nil => cases f <;> rfl
  | cons c cs ih => cases f <;> simp [emitLoop, ih]

/-- C3: for both dispatcher handlers, the chunk/end/error event
sequence of any session is zero or more chunk events followed by
exactly one terminal event — one End on completion or one Error on a
(possibly mid-stream) failure — never both, and no chunk events after
the terminal one.  (The rewrite handler's extra leading event is its
start signal, which is neither a chunk nor a terminal event.) -/
theorem C3_stream_terminal_events (o : StreamOutcome) :
    (∃ t, generateCompletionEvents o = o.chunks.map DispatchEv.chunk ++ [t] ∧
      (t = DispatchEv.done ∨ ∃ m, t = DispatchEv.err m)) ∧
    (∃ t, rewriteCompletionEvents o =
        DispatchEv.start :: (o.chunks.map DispatchEv.chunk ++ [t]) ∧
      (t = DispatchEv.done ∨ ∃ m, t = DispatchEv.err m)) ∧
    (generateCompletionEvents o).countP (fun e => isTerminal e) = 1 ∧
    (rewriteCompletionEvents o).countP (fun e => isTerminal e) = 1 := by
  have hterm : ∀ f : Option Str,
      (match f with | none => DispatchEv.done | some m => DispatchEv.err m) =
        DispatchEv.done ∨
      ∃ m, (match f with | none => DispatchEv.done | some m => DispatchEv.err m) =
        DispatchEv.err m := by
    intro f
    cases f with
    | none => exact Or.inl rfl
    | some m => exact Or.inr ⟨m, rfl⟩
  have hcount : ∀ (cs : List Str), (cs.map DispatchEv.chunk).countP
      (fun e => isTerminal e) = 0 := by
    intro cs
    induction cs with
    | nil => rfl
    | cons c cs ih => simp [List.countP_cons, isTerminal, ih]
  have htc : ∀ f : Option Str, isTerminal
      (match f with | none => DispatchEv.done | some m => DispatchEv.err m) = true := by
    intro f
    cases f <;> rfl
  refine ⟨⟨_, ?_, hterm o.failure⟩, ⟨_, ?_, hterm o.failure⟩, ?_, ?_⟩
  · exact emitLoop_eq o.chunks o.failure
  · unfold rewriteCompletionEvents
    rw [emitLoop_eq]
  · unfold generateCompletionEvents
    rw [emitLoop_eq, List.countP_append, hcount, List.countP_cons, List.countP_nil]
    simp [htc o.failure]
  · unfold rewriteCompletionEvents
    rw [emitLoop_eq, List.countP_cons, List.countP_append, hcount, List.countP_cons,
      List.countP_nil]
    simp [isTerminal]
    exact htc o.failure

theorem splitFirst_pre_not_infix {pat s pre post : Str} (hne : pat ≠ [])
    (h : splitFirst pat s = some (pre, post)) : ¬ pat <:+: pre := by
  induction s generalizing pre post with
  | nil =>
    simp only [splitFirst] at h
    split at h
    · rename_i hp
      rw [List.isPrefixOf_iff_prefix] at hp
      rcases hp with ⟨t, ht⟩
      rcases List.append_eq_nil.mp ht with ⟨hpat, -⟩
      exact absurd hpat hne
    · exact absurd h (by simp)
  | cons c rest ih =>
    simp only [splitFirst] at h
    split at h
    · rename_i hp
      simp only [Option.some.injEq, Prod.mk.injEq] at h
      rcases h with ⟨h1, -⟩
      rw [← h1, List.infix_nil]
      exact hne
    · rename_i hp
      split at h
      · rename_i pre' post' hsf
        simp only [Option.some.injEq, Prod.mk.injEq] at h
        rcases h with ⟨h1, -⟩
        rw [← h1]
        intro hx
        rcases List.infix_cons_iff.mp hx with hpfx | hinf
        · have heq := splitFirst_eq_append hsf
          have hpc : pat <+: c :: rest := by
            have h2 : c :: rest = (c :: pre') ++ (pat ++ post') := by
              rw [heq]; simp
            rw [h2]
            exact hpfx.trans (List.prefix_append _ _)
          rw [List.isPrefixOf_iff_prefix] at hp
          exact hp hpc
        · exact ih hsf hinf
      · exact absurd h (by simp)

/-- The extracted settings inner span never contains the settings close
tag: the regex is non-greedy, stopping at the first close tag. -/
theorem settingsPart_no_close (content : Str) :
    ¬ closeSettingsTag <:+: settingsPartOf content := by
  unfold settingsPartOf
  cases hx : extractTag openSettingsTag closeSettingsTag content with
  | none =>
    rw [List.infix_nil]
    decide
  | some inner =>
    unfold extractTag at hx
    split at hx
    · exact absurd hx (by simp)
    · split at hx
      · exact absurd hx (by simp)
      · rename_i heq2
        simp only [Option.some.injEq] at hx
        rw [← hx]
        exact splitFirst_pre_not_infix (by decide) heq2

theorem prefix_of_append_of_le {p a b : Str} (hp : p <+: a ++ b)
    (hlen : p.length ≤ a.length) : p <+: a := by
  have h1 : p = (a ++ b).take p.length := List.prefix_iff_eq_take.mp hp
  rw [List.take_append_of_le_length hlen] at h1
  exact List.prefix_iff_eq_take.mpr h1

/-- Append-step: the right part begins with a concrete block at least as
long as the pattern, none of whose prefixes ends the pattern. -/
theorem not_infix_append_blocked {pat a b0 b1 : Str}
    (ha : ¬ pat <:+: a) (hb : ¬ pat <:+: b0 ++ b1)
    (hlen : pat.length ≤ b0.length)
    (hs : ∀ p ∈ b0.inits, p = [] ∨ ¬ p <:+ pat) :
    ¬ pat <:+: a ++ (b0 ++ b1) := by
  refine not_infix_append_inits ha hb ?_
  intro p hp
  rcases le_or_lt p.length pat.length with hle | hlt
  · have hpre := (List.mem_inits _ _).mp hp
    have hp0 : p <+: b0 := prefix_of_append_of_le hpre (Nat.le_trans hle hlen)
    exact hs p ((List.mem_inits _ _).mpr hp0)
  · right
    intro hsfx
    exact Nat.lt_irrefl _ (Nat.lt_of_lt_of_le hlt hsfx.length_le)

theorem extract_text_injected {content ct : Str}
    (h1 : ¬ closeTextTag <:+: textPartOf content) :
    extractTag openTextTag closeTextTag (injectCritique content ct) =
      some (textPartOf content) := by
  have hshape : injectCritique content ct =
      ([] : Str) ++ openTextTag ++ textPartOf content ++ closeTextTag ++
        (['\n'] ++ (openSettingsTag ++ settingsPartOf content ++ closeSettingsTag ++
          ['\n']) ++ (openCritiqueTag ++ ('\n' :: ct) ++ ('\n' :: closeCritiqueTag))) := by
    simp [injectCritique, List.append_assoc]
  rw [hshape]
  exact extractTag_of_shape (by decide) (by decide) (by decide) (by decide)
    (by decide) h1

theorem extract_settings_injected {content ct : Str}
    (h2 : ¬ openSettingsTag <:+: textPartOf content) :
    extractTag openSettingsTag closeSettingsTag (injectCritique content ct) =
      some (settingsPartOf content) := by
  have hshape : injectCritique content ct =
      (openTextTag ++ (textPartOf content ++ (closeTextTag ++ ['\n']))) ++
        openSettingsTag ++ settingsPartOf content ++ closeSettingsTag ++
        (['\n'] ++ (openCritiqueTag ++ ('\n' :: ct) ++ ('\n' :: closeCritiqueTag))) := by
    simp [injectCritique, List.append_assoc]
  rw [hshape]
  have hpre : ¬ openSettingsTag <:+:
      openTextTag ++ (textPartOf content ++ (closeTextTag ++ ['\n'])) := by
    refine not_infix_append_tails (by decide) ?_ (by decide)
    exact not_infix_append_inits h2 (by decide) (by decide)
  exact extractTag_of_shape (by decide) (by decide) (by decide) (by decide) hpre
    (settingsPart_no_close content)

theorem extract_critique_injected {content ct : Str}
    (h3 : ¬ openCritiqueTag <:+: textPartOf content)
    (h4 : ¬ openCritiqueTag <:+: settingsPartOf content)
    (h5 : ¬ closeCritiqueTag <:+: ct) :
    extractTag openCritiqueTag closeCritiqueTag (injectCritique content ct) =
      some ('\n' :: (ct ++ ['\n'])) := by
  have hshape : injectCritique content ct =
      (openTextTag ++ (textPartOf content ++ ((closeTextTag ++ ('\n' :: openSettingsTag)) ++
        (settingsPartOf content ++ (closeSettingsTag ++ ['\n']))))) ++
        openCritiqueTag ++ ('\n' :: (ct ++ ['\n'])) ++ closeCritiqueTag ++ [] := by
    simp [injectCritique, List.append_assoc]
  rw [hshape]
  have hpre : ¬ openCritiqueTag <:+: openTextTag ++ (textPartOf content ++
      ((closeTextTag ++ ('\n' :: openSettingsTag)) ++
        (settingsPartOf content ++ (closeSettingsTag ++ ['\n'])))) := by
    refine not_infix_append_tails (by decide) ?_ (by decide)
    refine not_infix_append_blocked h3 ?_ (by decide) (by decide)
    refine not_infix_append_tails (by decide) ?_ (by decide)
    exact not_infix_append_inits h4 (by decide) (by decide)
  exact extractTag_of_shape (by decide) (by decide) (by decide) (by decide) hpre
    (not_infix_nl_wrap (by decide) (by decide) (by decide) h5)

/-- C5: (amended) for content whose text part (the extracted text
section, or the whole content when untagged) contains no literal
`</text>`, `<settings>` or `<critique>`, whose settings part contains
no `<critique>`, and a critique containing no `</critique>`, the
critique-injection step preserves the text and settings sections
verbatim — the output's text section equals the re-wrapped text part,
its settings section equals the re-wrapped settings part (empty when
the content had none) — and its critique section is exactly the new
critique text wrapped in single newlines, regardless of any previous
critique section. -/
theorem C5_critique_injection_frame (content ct : Str)
    (h1 : ¬ closeTextTag <:+: textPartOf content)
    (h2 : ¬ openSettingsTag <:+: textPartOf content)
    (h3 : ¬ openCritiqueTag <:+: textPartOf content)
    (h4 : ¬ openCritiqueTag <:+: settingsPartOf content)
    (h5 : ¬ closeCritiqueTag <:+: ct) :
    extractTag openTextTag closeTextTag (injectCritique content ct) =
      some (textPartOf content) ∧
    extractTag openSettingsTag closeSettingsTag (injectCritique content ct) =
      some (settingsPartOf content) ∧
    extractTag openCritiqueTag closeCritiqueTag (injectCritique content ct) =
      some ('\n' :: (ct ++ ['\n'])) :=
  ⟨extract_text_injected h1, extract_settings_injected h2,
    extract_critique_injected h3 h4 h5⟩

/-- C5 witness: injecting a critique into an untagged chapter. -/
theorem C5_critique_injection_frame_witness :
    extractTag openTextTag closeTextTag
        (injectCritique ['p', 'r', 'o', 's', 'e'] ['g', 'o', 'o', 'd']) =
      some (textPartOf ['p', 'r', 'o', 's', 'e']) ∧
    extractTag openSettingsTag closeSettingsTag
        (injectCritique ['p', 'r', 'o', 's', 'e'] ['g', 'o', 'o', 'd']) =
      some (settingsPartOf ['p', 'r', 'o', 's', 'e']) ∧
    extractTag openCritiqueTag closeCritiqueTag
        (injectCritique ['p', 'r', 'o', 's', 'e'] ['g', 'o', 'o', 'd']) =
      some ('\n' :: (['g', 'o', 'o', 'd'] ++ ['\n'])) :=
  C5_critique_injection_frame ['p', 'r', 'o', 's', 'e'] ['g', 'o', 'o', 'd']
    (by decide) (by decide) (by decide) (by decide) (by decide)

/-- C5 counterexample: the claim as stated (for every raw chapter
string) is false: for raw content `<text>A<settings>B</text>` — which
has no settings section — the injected output's settings section is not
empty (the smuggled open tag inside the unterminated text section
captures `B</text>` followed by the injected open tag), so the
settings section is not preserved as the claim requires. -/
theorem C5_critique_injection_counterexample :
    extractTag openSettingsTag closeSettingsTag
        (openTextTag ++ ['A'] ++ openSettingsTag ++ ['B'] ++ closeTextTag) = none ∧
    extractTag openSettingsTag closeSettingsTag
        (injectCritique (openTextTag ++ ['A'] ++ openSettingsTag ++ ['B'] ++ closeTextTag)
          ['C']) ≠ some [] := by
  decide

theorem jsJoin_mem_split (sep : Str) {x : Str} {l : List Str} (h : x ∈ l) :
    ∃ a b, jsJoin sep l = a ++ x ++ b := by
  induction l with
  | nil => cases h
  | cons y ys ih =>
    rcases List.mem_cons.mp h with rfl | hmem
    · cases ys with
      | nil => exact ⟨[], [], by simp [jsJoin]⟩
      | cons z t => exact ⟨[], sep ++ jsJoin sep (z :: t), by simp [jsJoin]⟩
    · cases ys with
      | nil => cases hmem
      | cons z t =>
        rcases ih hmem with ⟨a, b, hab⟩
        exact ⟨y ++ sep ++ a, b, by simp [jsJoin, hab]⟩

theorem append_ne_nil_left {a b : Str} (ha : a ≠ []) : a ++ b ≠ [] := by
  intro h
  exact ha (List.append_eq_nil.mp h).1

theorem append_ne_nil_right {a b : Str} (hb : b ≠ []) : a ++ b ≠ [] := by
  intro h
  exact hb (List.append_eq_nil.mp h).2

/-- C6: for a critique request with a plot present, chapter settings
carrying a summary and a style note, and a successfully described
character entity file among the listed files, the assembled prompt
contains the project-overview section (header line and plot), the
chapter summary line, the style-notes line and the character's
descriptive line, in that relative order, all before the chapter
text. -/
theorem C6_critique_prompt_fragments (p : ProjectSettings) (files : List EntityFile)
    (content inner : Str) (pj : Json) (f : EntityFile)
    (hcontent : content ≠ []) (hplot : p.plot ≠ [])
    (hset : extractTag openSettingsTag closeSettingsTag content = some inner)
    (hjson : jsonParse (jsTrim inner) = some pj)
    (hsu : jsGetStrField pj keySummary ≠ [])
    (hst : jsGetStrField pj keyStyle ≠ [])
    (hf : f ∈ files)
    (hchar : containsSub charactersKey f.path = true)
    (hext : jsonExt.isSuffixOf f.name = true)
    (hdesc : entityDescOf f ≠ []) :
    ∃ x0 x1 x2 x3 x4 x5,
      handleCritique (some p) files content =
        some (x0 ++
          (("Project Overview:\n").data ++ plotHeaderLineOf p ++
            ("Plot: ").data ++ p.plot) ++ x1 ++
          (("Chapter Summary: ").data ++ jsGetStrField pj keySummary) ++ x2 ++
          (("Writing Style Notes: ").data ++ jsGetStrField pj keyStyle) ++ x3 ++
          entityDescOf f ++ x4 ++ chapterTextOf content ++ x5) := by
  have hplotC : plotContextOf (some p) =
      plotHeaderLineOf p ++ (("Plot: ").data ++ p.plot ++ ['\n']) := by
    simp only [plotContextOf]
    rw [if_pos hplot]
  have hchapC : chapterSettingsContextOf content =
      (("Chapter Summary: ").data ++ jsGetStrField pj keySummary ++ ['\n']) ++
        ageOffsetPartOf pj ++
        (("Writing Style Notes: ").data ++ jsGetStrField pj keyStyle ++ ['\n']) := by
    unfold chapterSettingsContextOf
    simp only [hset, hjson]
    rw [if_pos hsu, if_pos hst]
  have hmem : entityDescOf f ∈ entityLinesOf files := by
    refine List.mem_filterMap.mpr ⟨f, List.mem_filter.mpr ⟨hf, ?_⟩, ?_⟩
    · simp [isEntityFile, hchar, hext]
    · rw [if_neg hdesc]
  obtain ⟨a, b, hab⟩ := jsJoin_mem_split ['\n'] hmem
  have hlne : entityLinesOf files ≠ [] := List.ne_nil_of_mem hmem
  have hentC : entityContextOf files = jsJoin ['\n'] (entityLinesOf files) := by
    unfold entityContextOf
    rw [if_neg hlne]
  have hplotne : plotContextOf (some p) ≠ [] := by
    rw [hplotC]
    exact append_ne_nil_right (append_ne_nil_right (by decide))
  have hchapne : chapterSettingsContextOf content ≠ [] := by
    rw [hchapC]
    exact append_ne_nil_left (append_ne_nil_left (append_ne_nil_right (by decide)))
  have hentne : entityContextOf files ≠ [] := by
    rw [hentC, hab]
    exact append_ne_nil_left (append_ne_nil_right hdesc)
  refine ⟨critiquePreamble,
    ['\n'] ++ ['\n', '\n'] ++ ("Chapter Context:\n").data,
    ['\n'] ++ ageOffsetPartOf pj,
    ['\n'] ++ ['\n', '\n'] ++ ("Characters, Places & Objects:\n").data ++ a,
    b ++ ("\n\n---\n").data,
    ("\n---").data, ?_⟩
  unfold handleCritique
  rw [if_neg hcontent]
  unfold handleCritiquePrompt sectionsOf
  rw [if_pos hplotne, if_pos hchapne, if_pos hentne]
  rw [hplotC, hchapC, hentC, hab]
  simp [jsJoin, List.append_assoc]

/-- C6 witness: the prompt-fragments theorem at the concrete scenario
of the spec: plot `A detective story`, chapter summary `She finds the
body`, style `noir, first person`, one character file `Jane`. -/
theorem C6_critique_prompt_fragments_witness :
    ∃ x0 x1 x2 x3 x4 x5,
      handleCritique (some { title := [], author := [], plot := ("A detective story").data })
          [{ path := ("Characters/Jane.json").data, name := ("Jane.json").data,
             readSuccess := true, content := ("\x7b\"name\": \"Jane\"\x7d").data }]
          (openSettingsTag ++ stringifySettings ("She finds the body").data ['0']
            ("noir, first person").data ++ closeSettingsTag) =
        some (x0 ++
          (("Project Overview:\n").data ++
            plotHeaderLineOf { title := [], author := [], plot := ("A detective story").data } ++
            ("Plot: ").data ++ ("A detective story").data) ++ x1 ++
          (("Chapter Summary: ").data ++
            jsGetStrField (Json.obj [(keySummary, Json.str ("She finds the body").data),
              (keyAgeOffset, Json.str ['0']),
              (keyStyle, Json.str ("noir, first person").data)]) keySummary) ++ x2 ++
          (("Writing Style Notes: ").data ++
            jsGetStrField (Json.obj [(keySummary, Json.str ("She finds the body").data),
              (keyAgeOffset, Json.str ['0']),
              (keyStyle, Json.str ("noir, first person").data)]) keyStyle) ++ x3 ++
          entityDescOf
            { path := ("Characters/Jane.json").data, name := ("Jane.json").data,
              readSuccess := true, content := ("\x7b\"name\": \"Jane\"\x7d").data } ++ x4 ++
          chapterTextOf (openSettingsTag ++ stringifySettings ("She finds the body").data ['0']
            ("noir, first person").data ++ closeSettingsTag) ++ x5) :=
  C6_critique_prompt_fragments
    { title := [], author := [], plot := ("A detective story").data }
    [{ path := ("Characters/Jane.json").data, name := ("Jane.json").data,
       readSuccess := true, content := ("\x7b\"name\": \"Jane\"\x7d").data }]
    (openSettingsTag ++ stringifySettings ("She finds the body").data ['0']
      ("noir, first person").data ++ closeSettingsTag)
    (stringifySettings ("She finds the body").data ['0'] ("noir, first person").data)
    (Json.obj [(keySummary, Json.str ("She finds the body").data),
      (keyAgeOffset, Json.str ['0']), (keyStyle, Json.str ("noir, first person").data)])
    { path := ("Characters/Jane.json").data, name := ("Jane.json").data,
      readSuccess := true, content := ("\x7b\"name\": \"Jane\"\x7d").data }
    (by decide) (by decide) (by decide)
    (by rw [jsTrim_stringify]; exact jsonParse_stringify _ _ _)
    (by decide) (by decide) (List.mem_cons_self _ _) (by decide) (by decide) (by decide)

theorem jsDedupAux_mem (l : List Str) : ∀ (seen : List Str) (x : Str),
    x ∈ jsDedupAux seen l ↔ x ∈ l ∧ x ∉ seen := by
  induction l with
  | nil => intro seen x; simp [jsDedupAux]
  | cons y ys ih =>
    intro seen x
    by_cases hy : y ∈ seen
    · rw [jsDedupAux, if_pos hy, ih]
      constructor
      · rintro ⟨hx, hns⟩
        exact ⟨List.mem_cons_of_mem _ hx, hns⟩
      · rintro ⟨hx, hns⟩
        rcases List.mem_cons.mp hx with rfl | hx'
        · exact absurd hy hns
        · exact ⟨hx', hns⟩
    · rw [jsDedupAux, if_neg hy]
      constructor
      · intro hx
        rcases List.mem_cons.mp hx with rfl | hx'
        · exact ⟨List.mem_cons_self _ _, hy⟩
        · rcases (ih (y :: seen) x).mp hx' with ⟨h1, h2⟩
          exact ⟨List.mem_cons_of_mem _ h1, fun hs => h2 (List.mem_cons_of_mem _ hs)⟩
      · rintro ⟨hx, hns⟩
        rcases List.mem_cons.mp hx with rfl | hx'
        · exact List.mem_cons_self _ _
        · by_cases hxy : x = y
          · subst hxy
            exact List.mem_cons_self _ _
          · refine List.mem_cons_of_mem _ ((ih (y :: seen) x).mpr ⟨hx', ?_⟩)
            intro hs
            rcases List.mem_cons.mp hs with h | h
            · exact hxy h
            · exact hns h

theorem jsDedupAux_nodup (l : List Str) : ∀ seen : List Str,
    (jsDedupAux seen l).Nodup := by
  induction l with
  | nil => intro seen; simp [jsDedupAux]
  | cons y ys ih =>
    intro seen
    by_cases hy : y ∈ seen
    · rw [jsDedupAux, if_pos hy]
      exact ih seen
    · rw [jsDedupAux, if_neg hy]
      refine List.nodup_cons.mpr ⟨?_, ih (y :: seen)⟩
      intro hmem
      exact ((jsDedupAux_mem ys _ _).mp hmem).2 (List.mem_cons_self _ _)

theorem jsDedup_mem (l : List Str) (x : Str) : x ∈ jsDedup l ↔ x ∈ l := by
  rw [jsDedup, jsDedupAux_mem]
  simp

theorem jsDedup_nodup (l : List Str) : (jsDedup l).Nodup :=
  jsDedupAux_nodup l []

theorem jsDedupAux_eq_self {l : List Str} (h : l.Nodup) : ∀ seen : List Str,
    (∀ x ∈ l, x ∉ seen) → jsDedupAux seen l = l := by
  induction l with
  | nil => intro seen hd; rfl
  | cons y ys ih =>
    intro seen hd
    rw [jsDedupAux, if_neg (hd y (List.mem_cons_self _ _))]
    congr 1
    refine ih (List.nodup_cons.mp h).2 _ ?_
    intro x hx hmem
    rcases List.mem_cons.mp hmem with rfl | hseen
    · exact (List.nodup_cons.mp h).1 hx
    · exact hd x (List.mem_cons_of_mem _ hx) hseen

theorem jsDedup_eq_self {l : List Str} (h : l.Nodup) : jsDedup l = l :=
  jsDedupAux_eq_self h [] (by simp)

/-- `setChapterOrder` persists an already duplicate-free, blank-free
order unchanged. -/
theorem setChapterOrderNormalize_eq_self {l : List Str} (h : l.Nodup)
    (hnb : ∀ n ∈ l, jsTrim n ≠ []) : setChapterOrderNormalize l = l := by
  unfold setChapterOrderNormalize
  have hf : l.filter (fun n => decide (0 < (jsTrim n).length)) = l := by
    refine List.filter_eq_self.mpr ?_
    intro n hn
    simp only [decide_eq_true_eq, List.length_pos]
    exact hnb n hn
  rw [hf]
  exact jsDedup_eq_self h

/-- Both normalisation paths share this shape: a duplicate-free base
drawn from disk, then the remaining disk files sorted by `le`. -/
theorem chapterOrderMergeSpec (le : Str → Str → Bool) (base disk : List Str)
    (hb : base.Nodup) (hsub : ∀ x ∈ base, x ∈ disk) (hdn : disk.Nodup)
    (htrans : ∀ a b c, le a b = true → le b c = true → le a c = true)
    (htot : ∀ a b, (le a b || le b a) = true) :
    (base ++ (disk.filter (fun f => decide (f ∉ base))).mergeSort le).Nodup ∧
    (∀ x, x ∈ base ++ (disk.filter (fun f => decide (f ∉ base))).mergeSort le ↔
      x ∈ disk) ∧
    List.Pairwise (fun a b => le a b = true)
      ((disk.filter (fun f => decide (f ∉ base))).mergeSort le) := by
  have hperm := List.mergeSort_perm (disk.filter (fun f => decide (f ∉ base))) le
  have hrest : (disk.filter (fun f => decide (f ∉ base))).Nodup :=
    List.Nodup.filter _ hdn
  have hmnd : ((disk.filter (fun f => decide (f ∉ base))).mergeSort le).Nodup :=
    hperm.nodup_iff.mpr hrest
  have hmmem : ∀ x, x ∈ (disk.filter (fun f => decide (f ∉ base))).mergeSort le ↔
      x ∈ disk ∧ x ∉ base := by
    intro x
    rw [hperm.mem_iff, List.mem_filter]
    simp
  refine ⟨?_, ?_, List.sorted_mergeSort htrans htot _⟩
  · refine hb.append hmnd ?_
    intro x hxb hxm
    exact ((hmmem x).mp hxm).2 hxb
  · intro x
    rw [List.mem_append, hmmem x]
    constructor
    · rintro (hx | ⟨hx, -⟩)
      · exact hsub x hx
      · exact hx
    · intro hx
      by_cases hxb : x ∈ base
      · exact Or.inl hxb
      · exact Or.inr ⟨hx, hxb⟩

/-- C10: (amended) when the Chapters listing has no duplicates and no
blank-trim names, the saved order has no duplicates, and the comparator
is transitive and total, both handlers return an order that equals what
they leave persisted, is duplicate-free, contains exactly the on-disk
names, and consists of the retained entries (saved resp. provided
names still on disk, in their original relative order) followed by the
missing disk files in sorted order. -/
theorem C10_chapter_order_normalization (le : Str → Str → Bool)
    (saved disk order : List Str)
    (hdn : disk.Nodup) (hsn : saved.Nodup)
    (hnb : ∀ n ∈ disk, jsTrim n ≠ [])
    (htrans : ∀ a b c, le a b = true → le b c = true → le a c = true)
    (htot : ∀ a b, (le a b || le b a) = true) :
    ((getChapterOrderHandler le saved disk).2 = (getChapterOrderHandler le saved disk).1 ∧
     (getChapterOrderHandler le saved disk).1.Nodup ∧
     (∀ x, x ∈ (getChapterOrderHandler le saved disk).1 ↔ x ∈ disk) ∧
     (∃ m, (getChapterOrderHandler le saved disk).1 =
        saved.filter (fun f => decide (f ∈ disk)) ++ m ∧
       List.Pairwise (fun a b => le a b = true) m)) ∧
    ((setChapterOrderHandler le disk order).2 = (setChapterOrderHandler le disk order).1 ∧
     (setChapterOrderHandler le disk order).1.Nodup ∧
     (∀ x, x ∈ (setChapterOrderHandler le disk order).1 ↔ x ∈ disk) ∧
     (∃ m, (setChapterOrderHandler le disk order).1 =
        (jsDedup order).filter (fun f => decide (f ∈ disk)) ++ m ∧
       List.Pairwise (fun a b => le a b = true) m)) := by
  have hget := chapterOrderMergeSpec le (saved.filter (fun f => decide (f ∈ disk))) disk
    (List.Nodup.filter _ hsn)
    (fun x hx => by
      have h2 := (List.mem_filter.mp hx).2
      simpa using h2)
    hdn htrans htot
  have hset := chapterOrderMergeSpec le
    ((jsDedup order).filter (fun f => decide (f ∈ disk))) disk
    (List.Nodup.filter _ (jsDedup_nodup order))
    (fun x hx => by
      have h2 := (List.mem_filter.mp hx).2
      simpa using h2)
    hdn htrans htot
  have hpers_get : (getChapterOrderHandler le saved disk).2 =
      (getChapterOrderHandler le saved disk).1 := by
    show (if getChapterOrderNormalized le saved disk ≠ saved then
        setChapterOrderNormalize (getChapterOrderNormalized le saved disk)
      else saved) = getChapterOrderNormalized le saved disk
    by_cases heq : getChapterOrderNormalized le saved disk = saved
    · rw [if_neg (not_not_intro heq)]
      exact heq.symm
    · rw [if_pos heq]
      refine setChapterOrderNormalize_eq_self hget.1 ?_
      intro n hn
      exact hnb n ((hget.2.1 n).mp hn)
  have hpers_set : (setChapterOrderHandler le disk order).2 =
      (setChapterOrderHandler le disk order).1 := by
    show setChapterOrderNormalize (setChapterOrderNormalized le disk order) =
      setChapterOrderNormalized le disk order
    refine setChapterOrderNormalize_eq_self hset.1 ?_
    intro n hn
    exact hnb n ((hset.2.1 n).mp hn)
  exact ⟨⟨hpers_get, hget.1, hget.2.1, ⟨_, rfl, hget.2.2⟩⟩,
    ⟨hpers_set, hset.1, hset.2.1, ⟨_, rfl, hset.2.2⟩⟩⟩

/-- C10 witness: the normalisation theorem at a concrete saved order,
disk listing and caller-provided order, with the always-true
comparator. -/
theorem C10_chapter_order_normalization_witness :
    ((getChapterOrderHandler (fun _ _ => true) [['a']] [['a'], ['b']]).2 =
       (getChapterOrderHandler (fun _ _ => true) [['a']] [['a'], ['b']]).1 ∧
     (getChapterOrderHandler (fun _ _ => true) [['a']] [['a'], ['b']]).1.Nodup ∧
     (∀ x, x ∈ (getChapterOrderHandler (fun _ _ => true) [['a']] [['a'], ['b']]).1 ↔
       x ∈ [['a'], ['b']]) ∧
     (∃ m, (getChapterOrderHandler (fun _ _ => true) [['a']] [['a'], ['b']]).1 =
        List.filter (fun f => decide (f ∈ [['a'], ['b']])) [['a']] ++ m ∧
       List.Pairwise (fun a b => (fun _ _ => true) a b = true) m)) ∧
    ((setChapterOrderHandler (fun _ _ => true) [['a'], ['b']] [['b'], ['b'], ['c']]).2 =
       (setChapterOrderHandler (fun _ _ => true) [['a'], ['b']] [['b'], ['b'], ['c']]).1 ∧
     (setChapterOrderHandler (fun _ _ => true) [['a'], ['b']] [['b'], ['b'], ['c']]).1.Nodup ∧
     (∀ x, x ∈ (setChapterOrderHandler (fun _ _ => true) [['a'], ['b']]
        [['b'], ['b'], ['c']]).1 ↔ x ∈ [['a'], ['b']]) ∧
     (∃ m, (setChapterOrderHandler (fun _ _ => true) [['a'], ['b']] [['b'], ['b'], ['c']]).1 =
        List.filter (fun f => decide (f ∈ [['a'], ['b']])) (jsDedup [['b'], ['b'], ['c']]) ++ m ∧
       List.Pairwise (fun a b => (fun _ _ => true) a b = true) m)) :=
  C10_chapter_order_normalization (fun _ _ => true) [['a']] [['a'], ['b']]
    [['b'], ['b'], ['c']] (by decide) (by decide) (by decide)
    (fun _ _ _ _ _ => rfl) (fun _ _ => rfl)

/-- C10 counterexample: without the duplicate-free assumption on the
saved order, the claim is false: with `a.md` on disk and the saved
order `[a.md, a.md]`, the get handler returns `[a.md, a.md]` — a
duplicated order (and, matching the saved list exactly, it is not
rewritten).  The saved name list is modelled with single-character
names. -/
theorem C10_chapter_order_counterexample :
    (getChapterOrderHandler (fun _ _ => true) [['a'], ['a']] [['a']]).1 =
      [['a'], ['a']] ∧
    ¬ (getChapterOrderHandler (fun _ _ => true) [['a'], ['a']] [['a']]).1.Nodup := by
  have hf1 : List.filter (fun f => decide (f ∈ ([['a']] : List Str)))
      ([['a'], ['a']] : List Str) = [['a'], ['a']] := by decide
  have hf2 : List.filter (fun f => decide (f ∉ ([['a'], ['a']] : List Str)))
      ([['a']] : List Str) = [] := by decide
  have h1 : getChapterOrderNormalized (fun _ _ => true) [['a'], ['a']] [['a']] =
      [['a'], ['a']] := by
    unfold getChapterOrderNormalized
    rw [hf1, hf2, List.mergeSort_nil]
    simp
  refine ⟨h1, ?_⟩
  intro h
  rw [show (getChapterOrderHandler (fun _ _ => true) [['a'], ['a']] [['a']]).1 =
      getChapterOrderNormalized (fun _ _ => true) [['a'], ['a']] [['a']] from rfl,
    h1] at h
  simp [List.nodup_cons] at h
